import Mathlib

/-!
# Verification of the taxcollector query-benchmarking engine

Shallow embedding of `contrib/tee_adaptive_selector/execute_sql_queries_enhanced_with_analyze.py`
and of the scenario-mapping collaborator in
`contrib/tee_adaptive_selector/generate_sql_speedup_hash_cache.py`.

Modelling conventions:
* Python JSON scalar values are modelled by `PVal` (`vnull` for JSON null,
  `vnum` for numbers, `vstr` for any other scalar).  Numeric JSON leaves are
  modelled as integers (the buffer counters of the plan protocol are block
  counts; `int()` on an integer is the identity).
* Python floats measuring wall-clock time are modelled as exact rationals:
  the claims under study are structural identities between values the code
  copies or adds, not floating-point rounding facts.
* The nondeterministic environment (database responses, measured clock
  durations, timestamps) is passed to each function as explicit arguments.
* A Python dict field that is either absent or `None` is modelled as
  `Option.none` (Python `dict.get` collapses the two).
-/

/-- A JSON scalar value as read by the executor: null, a number, or any
other scalar (string-like).  Numbers are modelled as integers. -/
inductive PVal where
  | vnull
  | vnum (n : Int)
  | vstr (s : String)
deriving DecidableEq, Repr

open PVal

mutual
/-- A plan-document node, as consumed by `summarize_plan` / `extract_plan_tree`:
scalar fields (an association list mirroring the JSON object), the `Plans`
child array, and the optional `Workers` array. -/
inductive PNode where
  | mk (fields : List (String × PVal)) (plans : List PNode)
       (workers : Option (List PWorker))
deriving Repr

inductive PWorker where
  | mk (fields : List (String × PVal)) (plan : Option PNode)
deriving Repr
end

def PNode.fields : PNode → List (String × PVal)
  | .mk f _ _ => f

def PNode.plans : PNode → List PNode
  | .mk _ p _ => p

def PNode.workers : PNode → Option (List PWorker)
  | .mk _ _ w => w

def PWorker.fields : PWorker → List (String × PVal)
  | .mk f _ => f

def PWorker.plan : PWorker → Option PNode
  | .mk _ p => p

/-- `d.get(k)` on the scalar fields of a JSON object: `none` when the key is
absent or its value is JSON null (Python returns `None` in both cases). -/
def pyGet (fs : List (String × PVal)) (k : String) : Option PVal :=
  match fs.find? (fun kv => kv.1 == k) with
  | some (_, vnull) => none
  | some (_, v) => some v
  | none => none

/-- The ten buffer-counter names recognized by `collect_buffers` and
`extract_plan_tree` (identical lists in the source). -/
def bufferKeys : List String :=
  ["Shared Hit Blocks", "Shared Read Blocks", "Shared Dirtied Blocks",
   "Shared Written Blocks", "Local Hit Blocks", "Local Read Blocks",
   "Local Dirtied Blocks", "Local Written Blocks", "Temp Read Blocks",
   "Temp Written Blocks"]

/-- `agg[k] = agg.get(k, 0) + n` on a Python dict modelled as an ordered
association list: update in place if present, else append. -/
def addBuf (agg : List (String × Int)) (k : String) (n : Int) :
    List (String × Int) :=
  match agg with
  | [] => [(k, n)]
  | (k', m) :: rest =>
    if k' = k then (k', m + n) :: rest else (k', m) :: addBuf rest k n

/-- The per-node step of `collect_buffers`: for each recognized counter name
present on the node with a numeric value, add it into the aggregate. -/
def collectKeys (ks : List String) (fs : List (String × PVal))
    (agg : List (String × Int)) : List (String × Int) :=
  match ks with
  | [] => agg
  | k :: rest =>
    match pyGet fs k with
    | some (vnum n) => collectKeys rest fs (addBuf agg k n)
    | _ => collectKeys rest fs agg

mutual
/-- `collect_buffers` from `summarize_plan` (lines 228-247): sums the numeric
buffer counters of a node into `agg`, then recurses into the `Plans`
children only (the `Workers` array is never visited). -/
def collect_buffers (p : PNode) (agg : List (String × Int)) :
    List (String × Int) :=
  match p with
  | .mk fs plans _ => collect_buffers_list plans (collectKeys bufferKeys fs agg)

def collect_buffers_list (ps : List PNode) (agg : List (String × Int)) :
    List (String × Int) :=
  match ps with
  | [] => agg
  | p :: rest => collect_buffers_list rest (collect_buffers p agg)
end

/-- Looking a counter up in the aggregated buffer dict, defaulting to 0. -/
def bufLookup (agg : List (String × Int)) (k : String) : Int :=
  match agg.find? (fun kv => kv.1 == k) with
  | some (_, n) => n
  | none => 0

mutual
/-- The decoded plan tree produced by `extract_plan_tree`: the scalar copies,
the sparse per-node buffer dict (`None` when empty), the decoded children,
and the optionally preserved worker records. -/
inductive PlanTree where
  | mk (scalars : List (String × Option PVal))
       (buffers : Option (List (String × PVal)))
       (children : List PlanTree)
       (workers : Option (List WorkerRec))
deriving Repr

inductive WorkerRec where
  | mk (fields : List (String × PVal)) (planTree : Option PlanTree)
deriving Repr
end

def PlanTree.buffers : PlanTree → Option (List (String × PVal))
  | .mk _ b _ _ => b

def PlanTree.children : PlanTree → List PlanTree
  | .mk _ _ c _ => c

def PlanTree.workers : PlanTree → Option (List WorkerRec)
  | .mk _ _ _ w => w

def WorkerRec.planTree : WorkerRec → Option PlanTree
  | .mk _ t => t

/-- The source keys of the scalar fields copied verbatim by
`extract_plan_tree` (its `out` dict minus buffers/children/workers),
paired with the output key used in the decoded node. -/
def scalarKeys : List (String × String) :=
  [("node_type", "Node Type"), ("parent_relationship", "Parent Relationship"),
   ("strategy", "Strategy"), ("join_type", "Join Type"),
   ("parallel_aware", "Parallel Aware"), ("async_capable", "Async Capable"),
   ("relation", "Relation Name"), ("schema", "Schema"), ("alias", "Alias"),
   ("index_name", "Index Name"), ("startup_cost", "Startup Cost"),
   ("total_cost", "Total Cost"), ("plan_rows", "Plan Rows"),
   ("plan_width", "Plan Width"),
   ("actual_startup_time_ms", "Actual Startup Time"),
   ("actual_total_time_ms", "Actual Total Time"),
   ("actual_rows", "Actual Rows"), ("actual_loops", "Actual Loops"),
   ("output", "Output"), ("filter", "Filter"), ("index_cond", "Index Cond"),
   ("recheck_cond", "Recheck Cond"), ("hash_cond", "Hash Cond"),
   ("join_filter", "Join Filter"), ("merge_cond", "Merge Cond"),
   ("sort_key", "Sort Key"), ("group_key", "Group Key"),
   ("hash_key", "Hash Key"), ("exact_heap_tuples", "Exact Heap Tuples"),
   ("workers_planned", "Workers Planned"),
   ("workers_launched", "Workers Launched")]

/-- The per-node buffer dict of `extract_plan_tree`: each recognized counter
key whose document value is non-null, with its value copied verbatim. -/
def mkBufList (ks : List String) (fs : List (String × PVal)) :
    List (String × PVal) :=
  ks.filterMap (fun k => (pyGet fs k).map (fun v => (k, v)))

mutual
/-- `extract_plan_tree` (lines 296-377): recursively decodes one document
node into a `PlanTree`, recursing into the `Plans` children and, when a
`Workers` array is present, into each worker's own nested `Plan`. -/
def extract_plan_tree (p : PNode) : PlanTree :=
  match p with
  | .mk fs plans workers =>
    .mk (scalarKeys.map (fun kv => (kv.1, pyGet fs kv.2)))
        (let b := mkBufList bufferKeys fs; if b = [] then none else some b)
        (extract_plan_tree_list plans)
        (match workers with
         | none => none
         | some ws => some (extract_worker_list ws))

def extract_plan_tree_list (ps : List PNode) : List PlanTree :=
  match ps with
  | [] => []
  | p :: rest => extract_plan_tree p :: extract_plan_tree_list rest

def extract_worker_list (ws : List PWorker) : List WorkerRec :=
  match ws with
  | [] => []
  | w :: rest =>
    (match w with
     | .mk fs plan =>
       WorkerRec.mk fs
         (match plan with
          | none => none
          | some pn => some (extract_plan_tree pn))) :: extract_worker_list rest
end

/-- The numeric value of counter `k` at one decoded node (0 when the node's
buffer dict is absent, the key is missing, or the value is non-numeric). -/
def treeNodeVal (t : PlanTree) (k : String) : Int :=
  match t.buffers with
  | none => 0
  | some l =>
    match l.find? (fun kv => kv.1 == k) with
    | some (_, vnum n) => n
    | _ => 0

mutual
/-- Spec-worded aggregate (claim C1): the sum of counter `k` over every node
reachable through the decoded tree, including plan nodes nested inside
per-worker sub-executions; absent counters contribute 0. -/
def specTreeSum (k : String) (t : PlanTree) : Int :=
  match t with
  | .mk _ _ children workers =>
    treeNodeVal t k + specTreeSumList k children +
      (match workers with
       | none => 0
       | some ws => specWorkerSum k ws)

def specTreeSumList (k : String) (ts : List PlanTree) : Int :=
  match ts with
  | [] => 0
  | t :: rest => specTreeSum k t + specTreeSumList k rest

def specWorkerSum (k : String) (ws : List WorkerRec) : Int :=
  match ws with
  | [] => 0
  | .mk _ none :: rest => specWorkerSum k rest
  | .mk _ (some t) :: rest => specTreeSum k t + specWorkerSum k rest
end

mutual
/-- Children-only aggregate: the sum of counter `k` over the nodes reachable
through the `Plans`-children chain alone (worker sub-plans excluded). -/
def specTreeSumNW (k : String) (t : PlanTree) : Int :=
  match t with
  | .mk _ _ children _ => treeNodeVal t k + specTreeSumListNW k children

def specTreeSumListNW (k : String) (ts : List PlanTree) : Int :=
  match ts with
  | [] => 0
  | t :: rest => specTreeSumNW k t + specTreeSumListNW k rest
end

/-! ## String utilities mirroring the Python primitives used by the code -/

/-- Python `str.isspace` membership test, restricted to the ASCII whitespace
characters that occur in SQL text. -/
def pyIsSpace (c : Char) : Bool :=
  c == ' ' || c == '\t' || c == '\n' || c == '\r' ||
    c == Char.ofNat 11 || c == Char.ofNat 12

/-- `str.strip()` on a character list: drop whitespace from the right end,
then from the left end (order is immaterial for Python; this order eases
reasoning). -/
def stripChars (l : List Char) : List Char :=
  ((l.reverse.dropWhile pyIsSpace).reverse).dropWhile pyIsSpace

/-- Python `str.strip()`. -/
def pyStrip (s : String) : String := ⟨stripChars s.data⟩

/-- ASCII lower-casing of one character (`str.lower` on the inputs at hand). -/
def lowerChar (c : Char) : Char :=
  if 65 ≤ c.toNat ∧ c.toNat ≤ 90 then Char.ofNat (c.toNat + 32) else c

/-- ASCII upper-casing of one character (`str.upper` on the inputs at hand). -/
def upperChar (c : Char) : Char :=
  if 97 ≤ c.toNat ∧ c.toNat ≤ 122 then Char.ofNat (c.toNat - 32) else c

/-- Python `str.lower()`. -/
def pyLower (s : String) : String := ⟨s.data.map lowerChar⟩

/-- Python `str.upper()`. -/
def pyUpper (s : String) : String := ⟨s.data.map upperChar⟩

/-- Boolean prefix test on character lists. -/
def isPrefixB : List Char → List Char → Bool
  | [], _ => true
  | _ :: _, [] => false
  | a :: as, b :: bs => a == b && isPrefixB as bs

/-- Boolean substring-containment test: Python's `needle in haystack`. -/
def isInfixB (p : List Char) : List Char → Bool
  | [] => isPrefixB p []
  | c :: ts => isPrefixB p (c :: ts) || isInfixB p ts

/-- Boolean suffix test on character lists (used to state the claim-side
"ends with" reading of the round filter). -/
def isSuffixB (p t : List Char) : Bool := isPrefixB p.reverse t.reverse

/-- The decimal digit character for `d < 10`. -/
def digitChar (d : Nat) : Char := Char.ofNat (48 + d)

/-- Fuel-driven decimal rendering (the fuel makes the definition
structurally recursive; `decDigits` supplies enough fuel). -/
def decDigitsAux (fuel n : Nat) : List Char :=
  match fuel with
  | 0 => []
  | fuel' + 1 =>
    if n < 10 then [digitChar n]
    else decDigitsAux fuel' (n / 10) ++ [digitChar (n % 10)]

/-- Decimal rendering of a natural number, most-significant digit first:
Python `str(n)` for nonnegative `n` (f-string interpolation of the round
number). -/
def decDigits (n : Nat) : List Char := decDigitsAux (n + 1) n

/-- Python `str(n)` for a natural number. -/
def natToDec (n : Nat) : String := ⟨decDigits n⟩

/-! ## The scenario-mapping collaborator (`generate_sql_speedup_hash_cache.py`) -/

/-- The literal dict of `map_scenario` (lines 169-183). -/
def scenarioMapping : List (String × String) :=
  [("baseline", "NONE"), ("ce_cm", "CE+CM"), ("ce", "CE"), ("cm", "CM"),
   ("jn", "JN"), ("ce_jn", "CE+JN"), ("cm_jn", "CM+JN"),
   ("all_three", "ALL"), ("all", "ALL"), ("ce+cm", "CE+CM"),
   ("ce+jn", "CE+JN"), ("cm+jn", "CM+JN"), ("ce+cm+jn", "ALL")]

/-- `map_scenario` (lines 165-184): empty input maps to `"NONE"`; otherwise
the stripped, lower-cased input is looked up in the dict, defaulting to the
stripped, upper-cased input. -/
def map_scenario (best_combo : String) : String :=
  if best_combo = "" then "NONE"
  else
    match scenarioMapping.lookup (pyLower (pyStrip best_combo)) with
    | some v => v
    | none => pyUpper (pyStrip best_combo)

/-- The eight canonical scenario labels named by claim C9. -/
def canonicalLabels : List String :=
  ["NONE", "CE", "CM", "JN", "CE+CM", "CE+JN", "CM+JN", "ALL"]

/-! ## Plan summary (`summarize_plan`) -/

/-- The top-level EXPLAIN JSON document (after the `plan_json[0]` unwrap):
the root `Plan` object (absent defaults to an empty dict), the two
session-level times, and the optional `JIT` object. -/
structure TopDoc where
  plan : Option PNode
  planning_time : Option PVal
  execution_time : Option PVal
  jit : Option (List (String × PVal))

/-- The empty JSON object, the default for a missing `Plan` key. -/
def emptyPNode : PNode := .mk [] [] none

/-- The root-node digest assembled by `summarize_plan`. -/
structure RootDigest where
  node_type : Option PVal
  relation : Option PVal
  schema : Option PVal
  aliasName : Option PVal
  index_name : Option PVal
  plan_rows : Option PVal
  plan_width : Option PVal
  total_cost : Option PVal
  actual_rows : Option PVal
  actual_total_time_ms : Option PVal
  actual_loops : Option PVal
  workers_planned : Option PVal
  workers_launched : Option PVal

/-- The JIT digest of `summarize_plan` (the `Timing` entry is kept only when
present in the source object). -/
structure JitSummary where
  functions : Option PVal
  options : Option PVal
  timing : Option PVal

/-- The compact plan summary built by `summarize_plan`. -/
structure PlanSummary where
  planning_time_ms : Option PVal
  execution_time_ms : Option PVal
  root : RootDigest
  buffers : Option (List (String × Int))
  jit : Option JitSummary
  complete_plan_tree : PlanTree

/-- `summarize_plan` (lines 201-292): root digest, whole-tree aggregated
buffer counters via `collect_buffers` (empty dict stored as `None`), JIT
digest, and the full decoded tree. -/
def summarize_plan (top : TopDoc) : PlanSummary :=
  let plan := top.plan.getD emptyPNode
  let fs := plan.fields
  { planning_time_ms := top.planning_time
    execution_time_ms := top.execution_time
    root :=
      { node_type := pyGet fs "Node Type"
        relation := pyGet fs "Relation Name"
        schema := pyGet fs "Schema"
        aliasName := pyGet fs "Alias"
        index_name := pyGet fs "Index Name"
        plan_rows := pyGet fs "Plan Rows"
        plan_width := pyGet fs "Plan Width"
        total_cost := pyGet fs "Total Cost"
        actual_rows := pyGet fs "Actual Rows"
        actual_total_time_ms := pyGet fs "Actual Total Time"
        actual_loops := pyGet fs "Actual Loops"
        workers_planned := pyGet fs "Workers Planned"
        workers_launched := pyGet fs "Workers Launched" }
    buffers :=
      (let b := collect_buffers plan []
       if b = [] then none else some b)
    jit :=
      (match top.jit with
       | none => none
       | some jfs =>
         some { functions := pyGet jfs "Functions"
                options := pyGet jfs "Options"
                timing := pyGet jfs "Timing" })
    complete_plan_tree := extract_plan_tree plan }

/-- The aggregated buffer value for counter `k` as read from a summary whose
buffer dict may be absent (absent means no counter was collected, i.e. 0). -/
def summaryBufVal (ps : PlanSummary) (k : String) : Int :=
  match ps.buffers with
  | none => 0
  | some agg => bufLookup agg k

/-! ## Execution results and the three dispatch strategies -/

/-- A fetched result row (opaque scalar tuple). -/
abbrev Row := List PVal

/-- The outcome of one database round trip for the simple / detailed paths:
either fetched rows plus column names, or a driver error message. -/
inductive DbOutcome where
  | ok (rows : List Row) (cols : List String)
  | err (msg : String)

/-- The four client-side phase durations of the detailed path. -/
structure DetailedTiming where
  cursor_creation_time : ℚ
  query_execution_time : ℚ
  result_fetch_time : ℚ
  column_info_time : ℚ

/-- The uniform result record produced by every dispatch strategy.  A Python
dict key that is absent or `None` is `Option.none`. -/
structure ExecResult where
  query_name : String
  environment : String
  execution_time : ℚ
  detailed_timing : Option DetailedTiming
  row_count : Option PVal
  column_names : Option (List String)
  results : Option (List Row)
  error : Option String
  status : String
  timestamp : String
  plan_summary : Option PlanSummary
  plan_json : Option TopDoc

/-- `execute_query_simple` (lines 515-557): one execute + fetch, elapsed
client wall time, per-query error capture. -/
def execute_query_simple (envName ts qname : String) (outcome : DbOutcome)
    (elapsed : ℚ) : ExecResult :=
  match outcome with
  | .ok rows cols =>
    { query_name := qname, environment := envName, execution_time := elapsed
      detailed_timing := none, row_count := some (vnum rows.length)
      column_names := some cols, results := some rows, error := none
      status := "success", timestamp := ts, plan_summary := none
      plan_json := none }
  | .err msg =>
    { query_name := qname, environment := envName, execution_time := elapsed
      detailed_timing := none, row_count := none, column_names := none
      results := none, error := some msg, status := "error", timestamp := ts
      plan_summary := none, plan_json := none }

/-- `execute_query_with_detailed_timing` (lines 383-459): four independently
measured phases; the reported total is their sum, not an outer measurement.
`errElapsed` is the client elapsed time recorded on the error path. -/
def execute_query_with_detailed_timing (envName ts qname : String)
    (outcome : DbOutcome) (tc te tf tcol errElapsed : ℚ) : ExecResult :=
  match outcome with
  | .ok rows cols =>
    { query_name := qname, environment := envName
      execution_time := tc + te + tf + tcol
      detailed_timing := some ⟨tc, te, tf, tcol⟩
      row_count := some (vnum rows.length), column_names := some cols
      results := some rows, error := none, status := "success"
      timestamp := ts, plan_summary := none, plan_json := none }
  | .err msg =>
    { query_name := qname, environment := envName
      execution_time := errElapsed, detailed_timing := none
      row_count := none, column_names := none, results := none
      error := some msg, status := "error", timestamp := ts
      plan_summary := none, plan_json := none }

/-- Output of `get_explain_analyze_json` on success: the summary plus the
raw document when `store_full_plan_json` is set. -/
structure GEOut where
  plan_summary : PlanSummary
  plan_json : Option TopDoc

/-- `get_explain_analyze_json` (lines 153-189): a protocol-level failure
becomes an error string; otherwise the parsed document is summarized. -/
def get_explain_analyze_json (store_full : Bool)
    (db : Except String TopDoc) : Except String GEOut :=
  match db with
  | .error e => .error ("EXPLAIN failed: " ++ e)
  | .ok top => .ok ⟨summarize_plan top, if store_full then some top else none⟩

/-- `execute_query_with_explain` (lines 461-513): runs the instrumented
statement, never re-fetches result rows, reports the server execution time
in seconds when it is numeric and the client elapsed time otherwise. -/
def execute_query_with_explain (envName ts qname : String)
    (db : Except String TopDoc) (client_elapsed : ℚ) (store_full : Bool) :
    ExecResult :=
  match get_explain_analyze_json store_full db with
  | .error e =>
    { query_name := qname, environment := envName
      execution_time := client_elapsed, detailed_timing := none
      row_count := none, column_names := none, results := none
      error := some e, status := "error", timestamp := ts
      plan_summary := none, plan_json := none }
  | .ok out =>
    let ps := out.plan_summary
    let primary : ℚ :=
      match ps.execution_time_ms with
      | some (vnum n) => (n : ℚ) / 1000
      | _ => client_elapsed
    { query_name := qname, environment := envName
      execution_time := primary, detailed_timing := none
      row_count := ps.root.actual_rows, column_names := none
      results := none, error := none, status := "success", timestamp := ts
      plan_summary := some ps, plan_json := out.plan_json }

/-! ## Query loading (`load_sql_files`) -/

/-- One loaded query: source filename and (stripped) SQL text. -/
structure QueryRecord where
  filename : String
  content : String
deriving DecidableEq, Repr

/-- Lexicographic (code-point) `≤` on strings, the order used by Python
`sorted` on the glob results. -/
def strLeB (a b : String) : Bool :=
  let rec go : List Char → List Char → Bool
    | [], _ => true
    | _ :: _, [] => false
    | x :: xs, y :: ys =>
      if x.toNat < y.toNat then true
      else if y.toNat < x.toNat then false
      else go xs ys
  go a.data b.data

/-- Stable insertion into a sorted list: `x` goes after every element `≤` it
(Python `sorted` is stable; duplicate names cannot occur in one directory). -/
def insertSorted (x : String × String) :
    List (String × String) → List (String × String)
  | [] => [x]
  | y :: ys =>
    if strLeB y.1 x.1 then y :: insertSorted x ys else x :: y :: ys

/-- Stable insertion sort by filename, modelling `sorted(glob.glob(...))`
over one directory (equal directory prefix, so path order is name order). -/
def sortByName : List (String × String) → List (String × String)
  | [] => []
  | f :: fs => insertSorted f (sortByName fs)

/-- The `*.sql` glob filter: a basename matched by the pattern ends in
`.sql` and is not a hidden (dot-prefixed) file. -/
def globSql (name : String) : Bool :=
  isSuffixB ".sql".data name.data && !(isPrefixB ".".data name.data)

/-- `load_sql_files` (lines 559-572) over a directory listing given as
(filename, file content) pairs: glob `*.sql`, sort by name, read and strip
each file, and keep only files whose stripped content is non-empty. -/
def load_sql_files (listing : List (String × String)) : List QueryRecord :=
  (sortByName (listing.filter (fun f => globSql f.1))).filterMap
    (fun f =>
      let content := pyStrip f.2
      if content = "" then none
      else some { filename := f.1, content := content })

/-! ## Round orchestration (`execute_all_queries`) -/

/-- The execution mode selected once per run. -/
inductive Mode where
  | simple
  | detailed
  | explain
deriving DecidableEq

/-- All nondeterministic inputs consumed by one dispatch call: the database
outcome for the plain paths, the EXPLAIN outcome for the plan path, and the
measured client durations and timestamp. -/
structure QueryEnvt where
  dbOutcome : DbOutcome
  explainOutcome : Except String TopDoc
  elapsed : ℚ
  tc : ℚ
  te : ℚ
  tf : ℚ
  tcol : ℚ
  errElapsed : ℚ
  client_elapsed : ℚ
  timestamp : String

/-- The round-qualified query name `f"{filename}_round{r}"`. -/
def qname (filename : String) (r : Nat) : String :=
  filename ++ "_round" ++ natToDec r

/-- Dispatch of one query through the selected strategy (lines 606-611). -/
def dispatch (mode : Mode) (store_full : Bool) (envName : String)
    (qe : QueryEnvt) (name : String) : ExecResult :=
  match mode with
  | .explain =>
    execute_query_with_explain envName qe.timestamp name qe.explainOutcome
      qe.client_elapsed store_full
  | .detailed =>
    execute_query_with_detailed_timing envName qe.timestamp name qe.dbOutcome
      qe.tc qe.te qe.tf qe.tcol qe.errElapsed
  | .simple =>
    execute_query_simple envName qe.timestamp name qe.dbOutcome qe.elapsed

/-- One round (lines 602-613): every loaded record, in order, each named
with the round-qualified query name.  `qenv r i` supplies the environment
of the `i`-th query of round `r`. -/
def runRound (mode : Mode) (store_full : Bool) (envName : String)
    (qenv : Nat → Nat → QueryEnvt) (recs : List QueryRecord) (r : Nat) :
    List ExecResult :=
  recs.enum.map (fun p =>
    dispatch mode store_full envName (qenv r p.1) (qname p.2.filename r))

/-- The accumulated result list after round `r`: rounds 1..r appended in
order (`self.results` grows append-only). -/
def resultsUpTo (mode : Mode) (store_full : Bool) (envName : String)
    (qenv : Nat → Nat → QueryEnvt) (recs : List QueryRecord) (r : Nat) :
    List ExecResult :=
  ((List.range r).map (· + 1)).flatMap
    (runRound mode store_full envName qenv recs)

/-- The round marker `f"_round{r}"` used by the per-round count filter. -/
def roundMarker (r : Nat) : String := "_round" ++ natToDec r

/-- The per-round success count printed after round `r` (lines 619-623):
results whose status is `success` and whose name CONTAINS the marker. -/
def roundSuccCount (acc : List ExecResult) (r : Nat) : Nat :=
  acc.countP (fun x =>
    x.status == "success" && isInfixB (roundMarker r).data x.query_name.data)

/-- The per-round error count printed after round `r` (lines 624-628). -/
def roundErrCount (acc : List ExecResult) (r : Nat) : Nat :=
  acc.countP (fun x =>
    x.status == "error" && isInfixB (roundMarker r).data x.query_name.data)

/-- Claim-side count: results of the given status whose name ENDS WITH the
round marker. -/
def specRoundCount (acc : List ExecResult) (status : String) (r : Nat) : Nat :=
  acc.countP (fun x =>
    x.status == status && isSuffixB (roundMarker r).data x.query_name.data)

/-! ## Round statistics and persistence (`execute_all_queries` tail,
`save_results`) -/

/-- Python `sum` over rationals: left fold of `+` from `0.0`. -/
def pySum (xs : List ℚ) : ℚ := xs.foldl (· + ·) 0

/-- Python `min` over a list: raises `ValueError` on an empty sequence. -/
def pyMin : List ℚ → Except String ℚ
  | [] => .error "ValueError: min() arg is an empty sequence"
  | x :: xs => .ok (xs.foldl min x)

/-- Python `max` over a list: raises `ValueError` on an empty sequence. -/
def pyMax : List ℚ → Except String ℚ
  | [] => .error "ValueError: max() arg is an empty sequence"
  | x :: xs => .ok (xs.foldl max x)

/-- The square of `statistics.stdev` (sample variance).  The claims under
study depend only on whether the statistic is computed, never on its value,
so the irrational square root is not modelled. -/
def sampleVarApprox (xs : List ℚ) : ℚ :=
  if xs.length ≤ 1 then 0
  else
    let m := pySum xs / xs.length
    pySum (xs.map (fun x => (x - m) ^ 2)) / (xs.length - 1)

/-- The end-of-run statistics block of `execute_all_queries` (lines
631-635), with Python's failure modes explicit and checked in source
order: `avg = total / iterations` divides by zero when `iterations = 0`,
and `min`/`max` reject an empty round-time series. -/
def end_of_run_stats (round_times : List ℚ) (iterations : Nat) :
    Except String (ℚ × ℚ × ℚ × ℚ × ℚ) :=
  let total := pySum round_times
  if iterations = 0 then .error "ZeroDivisionError: division by zero"
  else
    let avg := total / (iterations : ℚ)
    match pyMin round_times with
    | .error e => .error e
    | .ok mn =>
      match pyMax round_times with
      | .error e => .error e
      | .ok mx =>
        let sd :=
          if round_times.length > 1 then sampleVarApprox round_times else 0
        .ok (total, avg, mn, mx, sd)

/-- The executor's run-scoped state (`self.results`, `self.round_times`,
`self.connect_time`). -/
structure RunState where
  results : List ExecResult
  round_times : List ℚ
  connect_time : ℚ

/-- The state at construction time (lines 77-79). -/
def initState : RunState := { results := [], round_times := [], connect_time := 0 }

/-- `execute_all_queries` (lines 574-651) as a state transformer.
`connect` is the outcome of the initial connection attempt (`none` on
failure); `roundDur` the measured wall-clock duration of each round.  On a
failed connection the method returns at once (line 585-586).  A raised
`ZeroDivisionError`/`ValueError` in the statistics block aborts the run
abnormally before `self.round_times` is assigned. -/
def execute_all_queries (connect : Option ℚ) (mode : Mode)
    (store_full : Bool) (envName : String) (qenv : Nat → Nat → QueryEnvt)
    (roundDur : Nat → ℚ) (listing : List (String × String))
    (iterations : Nat) (st : RunState) : Except String RunState :=
  match connect with
  | none => .ok st
  | some dt =>
    let recs := load_sql_files listing
    let res := resultsUpTo mode store_full envName qenv recs iterations
    let rts := ((List.range iterations).map (· + 1)).map roundDur
    match end_of_run_stats rts iterations with
    | .error e => .error e
    | .ok _ =>
      .ok { results := st.results ++ res, round_times := rts
            connect_time := dt }

/-- The round-statistics fields merged into the summary block by
`save_results` (lines 685-697) when the round-time series is non-empty. -/
structure RoundStatsBlock where
  rounds : Nat
  average_round_time : ℚ
  min_round_time : ℚ
  max_round_time : ℚ
  total_round_time : ℚ
  std_deviation : ℚ

/-- The summary block of the persisted report (lines 670-680). -/
structure SummaryBlock where
  total_queries : Nat
  successful_queries : Nat
  failed_queries : Nat
  total_execution_time : ℚ
  average_query_time : ℚ
  roundStats : Option RoundStatsBlock

/-- The persisted `SessionReport` (lines 667-697). -/
structure SaveData where
  environment : String
  connection_time : ℚ
  summary : SummaryBlock
  round_times : List ℚ
  query_results : List ExecResult

/-- `save_results` (lines 653-703): totals over successful results only,
average over ALL results, and round statistics only when the round-time
series is non-empty.  `min`/`max` here are total because the guard ensures
a non-empty list (modelled with a head-default that the guard makes
irrelevant). -/
def save_results (envName : String) (st : RunState) : SaveData :=
  let total_exec :=
    pySum ((st.results.filter (fun r => r.status == "success")).map
      (fun r => r.execution_time))
  let n := st.results.length
  let avg_query_time : ℚ := if n = 0 then 0 else total_exec / (n : ℚ)
  { environment := envName
    connection_time := st.connect_time
    summary :=
      { total_queries := st.results.length
        successful_queries :=
          st.results.countP (fun r => r.status == "success")
        failed_queries := st.results.countP (fun r => r.status == "error")
        total_execution_time := total_exec
        average_query_time := avg_query_time
        roundStats :=
          match st.round_times with
          | [] => none
          | x :: xs =>
            some { rounds := (x :: xs).length
                   average_round_time := pySum (x :: xs) / ((x :: xs).length : ℚ)
                   min_round_time := xs.foldl min x
                   max_round_time := xs.foldl max x
                   total_round_time := pySum (x :: xs)
                   std_deviation :=
                     if (x :: xs).length > 1 then sampleVarApprox (x :: xs)
                     else 0 } }
    round_times := st.round_times
    query_results := st.results }

/-- A default query environment used to instantiate witnesses. -/
def defaultQE : QueryEnvt :=
  { dbOutcome := .err "", explainOutcome := .error "", elapsed := 0, tc := 0
    te := 0, tf := 0, tcol := 0, errElapsed := 0, client_elapsed := 0
    timestamp := "" }

/-- The numeric contribution of counter `k` on one document node: its value
when present and numeric, 0 otherwise (mirrors the guard
`k in p and isinstance(p[k], (int, float))`). -/
def nodeVal (fs : List (String × PVal)) (k : String) : Int :=
  match pyGet fs k with
  | some (PVal.vnum n) => n
  | _ => 0

/-- The numeric value of counter `k` in a per-node buffer dict. -/
def bufListVal (l : List (String × PVal)) (k : String) : Int :=
  match l.find? (fun kv => kv.1 == k) with
  | some (_, PVal.vnum n) => n
  | _ => 0

/-! ## Theorems -/

/-- C3: in plan-instrumented mode, a successful result's `execution_time` is
the server-reported `Execution Time` divided by 1000 whenever that value is
present as a number in the plan document, and the client-measured elapsed
time around the whole instrumented call otherwise. -/
theorem C3_plan_mode_execution_time (envName ts qn : String) (top : TopDoc)
    (ce : ℚ) (store : Bool) :
    (execute_query_with_explain envName ts qn (.ok top) ce store).status =
      "success" ∧
    (∀ n : Int, top.execution_time = some (PVal.vnum n) →
      (execute_query_with_explain envName ts qn (.ok top) ce
          store).execution_time = (n : ℚ) / 1000) ∧
    ((∀ n : Int, top.execution_time ≠ some (PVal.vnum n)) →
      (execute_query_with_explain envName ts qn (.ok top) ce
          store).execution_time = ce) := by
  refine ⟨rfl, ?_, ?_⟩
  · intro n h
    simp [execute_query_with_explain, get_explain_analyze_json,
      summarize_plan, h]
  · intro h
    rcases hv : top.execution_time with _ | v
    · simp [execute_query_with_explain, get_explain_analyze_json,
        summarize_plan, hv]
    · cases v with
      | vnull =>
        simp [execute_query_with_explain, get_explain_analyze_json,
          summarize_plan, hv]
      | vnum n => exact absurd hv (h n)
      | vstr s =>
        simp [execute_query_with_explain, get_explain_analyze_json,
          summarize_plan, hv]

/-- Witness for C3 at a concrete plan document (server time 1500 ms) and a
concrete document lacking the server time. -/
theorem C3_plan_mode_execution_time_witness :
    (execute_query_with_explain "e" "t" "q"
        (.ok ⟨none, none, some (PVal.vnum 1500), none⟩) 7
        false).execution_time = (1500 : ℚ) / 1000 ∧
    (execute_query_with_explain "e" "t" "q" (.ok ⟨none, none, none, none⟩) 7
        false).execution_time = 7 :=
  ⟨(C3_plan_mode_execution_time "e" "t" "q" ⟨none, none, some (PVal.vnum 1500), none⟩
      7 false).2.1 1500 rfl,
   (C3_plan_mode_execution_time "e" "t" "q" ⟨none, none, none, none⟩ 7
      false).2.2 (by intro n h; cases h)⟩

/-- C4: across all three dispatch strategies, an error result records the
client-measured elapsed time and carries no plan summary; a successful plan-
mode result carries a plan summary and no raw rows or column names. -/
theorem C4_result_invariants (envName ts qn : String) (out : DbOutcome)
    (elapsed tc te tf tcol errE ce : ℚ) (db : Except String TopDoc)
    (store : Bool) :
    ((execute_query_simple envName ts qn out elapsed).status = "error" →
      (execute_query_simple envName ts qn out elapsed).execution_time =
          elapsed ∧
      (execute_query_simple envName ts qn out elapsed).plan_summary = none) ∧
    ((execute_query_with_detailed_timing envName ts qn out tc te tf tcol
          errE).status = "error" →
      (execute_query_with_detailed_timing envName ts qn out tc te tf tcol
          errE).execution_time = errE ∧
      (execute_query_with_detailed_timing envName ts qn out tc te tf tcol
          errE).plan_summary = none) ∧
    ((execute_query_with_explain envName ts qn db ce store).status =
        "error" →
      (execute_query_with_explain envName ts qn db ce store).execution_time =
          ce ∧
      (execute_query_with_explain envName ts qn db ce store).plan_summary =
          none) ∧
    ((execute_query_with_explain envName ts qn db ce store).status =
        "success" →
      (execute_query_with_explain envName ts qn db ce store).plan_summary.isSome ∧
      (execute_query_with_explain envName ts qn db ce store).results = none ∧
      (execute_query_with_explain envName ts qn db ce store).column_names =
          none) := by
  refine ⟨?_, ?_, ?_, ?_⟩
  · cases out <;> simp [execute_query_simple]
  · cases out <;> simp [execute_query_with_detailed_timing]
  · cases db <;>
      simp [execute_query_with_explain, get_explain_analyze_json]
  · cases db <;>
      simp [execute_query_with_explain, get_explain_analyze_json]

/-- Witness for C4: a concrete failing query in simple mode and a concrete
successful plan-mode call. -/
theorem C4_result_invariants_witness :
    ((execute_query_simple "e" "t" "q" (.err "boom") 3).execution_time = 3 ∧
      (execute_query_simple "e" "t" "q" (.err "boom") 3).plan_summary =
        none) ∧
    ((execute_query_with_explain "e" "t" "q" (.error "relation missing") 5
        false).execution_time = 5 ∧
      (execute_query_with_explain "e" "t" "q" (.error "relation missing") 5
        false).plan_summary = none) ∧
    ((execute_query_with_explain "e" "t" "q" (.ok ⟨none, none, none, none⟩) 2
        false).plan_summary.isSome ∧
      (execute_query_with_explain "e" "t" "q" (.ok ⟨none, none, none, none⟩)
        2 false).results = none ∧
      (execute_query_with_explain "e" "t" "q" (.ok ⟨none, none, none, none⟩)
        2 false).column_names = none) :=
  ⟨(C4_result_invariants "e" "t" "q" (.err "boom") 3 0 0 0 0 0 5
      (.error "relation missing") false).1 rfl,
   (C4_result_invariants "e" "t" "q" (.err "boom") 3 0 0 0 0 0 5
      (.error "relation missing") false).2.2.1 rfl,
   (C4_result_invariants "e" "t" "q" (.err "boom") 3 0 0 0 0 0 2
      (.ok ⟨none, none, none, none⟩) false).2.2.2 rfl⟩

/-- C5: in detailed mode every successful result reports as `execution_time`
exactly the sum of the four stored phase durations. -/
theorem C5_detailed_time_is_sum_of_phases (envName ts qn : String)
    (out : DbOutcome) (tc te tf tcol errE : ℚ) :
    (execute_query_with_detailed_timing envName ts qn out tc te tf tcol
        errE).status = "success" →
    ∃ dt : DetailedTiming,
      (execute_query_with_detailed_timing envName ts qn out tc te tf tcol
          errE).detailed_timing = some dt ∧
      (execute_query_with_detailed_timing envName ts qn out tc te tf tcol
          errE).execution_time =
        dt.cursor_creation_time + dt.query_execution_time +
          dt.result_fetch_time + dt.column_info_time := by
  cases out with
  | ok rows cols => exact fun _ => ⟨⟨tc, te, tf, tcol⟩, rfl, rfl⟩
  | err msg => simp [execute_query_with_detailed_timing]

/-- Witness for C5 at a concrete successful detailed-mode call. -/
theorem C5_detailed_time_is_sum_of_phases_witness :
    ∃ dt : DetailedTiming,
      (execute_query_with_detailed_timing "e" "t" "q" (.ok [] ["c"]) 1 2 3 4
          9).detailed_timing = some dt ∧
      (execute_query_with_detailed_timing "e" "t" "q" (.ok [] ["c"]) 1 2 3 4
          9).execution_time =
        dt.cursor_creation_time + dt.query_execution_time +
          dt.result_fetch_time + dt.column_info_time :=
  C5_detailed_time_is_sum_of_phases "e" "t" "q" (.ok [] ["c"]) 1 2 3 4 9 rfl

/-- Python `sum` agrees with the mathematical list sum. -/
theorem pySum_eq_sum (xs : List ℚ) : pySum xs = xs.sum := by
  have aux : ∀ (l : List ℚ) (a : ℚ), l.foldl (· + ·) a = a + l.sum := by
    intro l
    induction l with
    | nil => intro a; simp
    | cons x t ih => intro a; simp [ih, add_assoc]
  simpa using aux xs 0

/-- C2 counterexample: with one successful result (2 s) and one failed
result (5 s), the persisted average is 1 s, not the 2 s demanded by
"total over successes divided by the number of successful results". -/
theorem C2_average_divides_by_all_results_counterexample :
    (save_results "e"
        { results :=
            [execute_query_simple "e" "t" "q1" (.ok [] []) 2,
             execute_query_simple "e" "t" "q2" (.err "x") 5]
          round_times := [], connect_time := 0 }).summary.average_query_time ≠
      (save_results "e"
          { results :=
              [execute_query_simple "e" "t" "q1" (.ok [] []) 2,
               execute_query_simple "e" "t" "q2" (.err "x") 5]
            round_times := [], connect_time := 0 }).summary.total_execution_time /
        ((save_results "e"
            { results :=
                [execute_query_simple "e" "t" "q1" (.ok [] []) 2,
                 execute_query_simple "e" "t" "q2" (.err "x") 5]
              round_times := [],
              connect_time := 0 }).summary.successful_queries : ℚ) := by
  simp +decide [save_results, execute_query_simple, pySum]

/-- C2 (amended): `total_execution_time` is the sum of `execution_time` over
results with status success only, while `average_query_time` is that total
divided by the number of ALL results (successes and errors alike). -/
theorem C2_summary_totals (envName : String) (st : RunState)
    (h : st.results ≠ []) :
    (save_results envName st).summary.total_execution_time =
      ((st.results.filter (fun r => r.status == "success")).map
        (fun r => r.execution_time)).sum ∧
    (save_results envName st).summary.average_query_time =
      (save_results envName st).summary.total_execution_time /
        (st.results.length : ℚ) := by
  constructor
  · simp [save_results, pySum_eq_sum]
  · simp only [save_results]
    rw [if_neg]
    simpa using h

/-- Witness for C2 at a single-result state. -/
theorem C2_summary_totals_witness :
    (save_results "e"
        { results := [execute_query_simple "e" "t" "q" (.ok [] []) 2]
          round_times := [], connect_time := 0 }).summary.total_execution_time =
      ((([execute_query_simple "e" "t" "q" (.ok [] []) 2]).filter
          (fun r => r.status == "success")).map
        (fun r => r.execution_time)).sum ∧
    (save_results "e"
        { results := [execute_query_simple "e" "t" "q" (.ok [] []) 2]
          round_times := [], connect_time := 0 }).summary.average_query_time =
      (save_results "e"
          { results := [execute_query_simple "e" "t" "q" (.ok [] []) 2]
            round_times := [],
            connect_time := 0 }).summary.total_execution_time /
        (([execute_query_simple "e" "t" "q" (.ok [] []) 2]).length : ℚ) :=
  C2_summary_totals "e"
    { results := [execute_query_simple "e" "t" "q" (.ok [] []) 2]
      round_times := [], connect_time := 0 } (by exact List.cons_ne_nil _ _)

/-- C8: when the initial connection attempt fails, `execute_all_queries`
returns before any round: the state is unchanged (no results, empty round-
time series) and the persisted summary contains no round statistics. -/
theorem C8_failed_connection_aborts (mode : Mode) (store : Bool)
    (env : String) (qenv : Nat → Nat → QueryEnvt) (roundDur : Nat → ℚ)
    (listing : List (String × String)) (iters : Nat) :
    execute_all_queries none mode store env qenv roundDur listing iters
        initState = .ok initState ∧
    initState.results = [] ∧ initState.round_times = [] ∧
    (save_results env initState).summary.roundStats = none :=
  ⟨rfl, rfl, rfl, rfl⟩

/-- The end-of-run statistics succeed on a non-empty round series with a
non-zero iteration count. -/
theorem end_stats_ok (rts : List ℚ) (n : Nat) (h : rts ≠ []) (hn : n ≠ 0) :
    ∃ v, end_of_run_stats rts n = .ok v := by
  cases rts with
  | nil => exact absurd rfl h
  | cons x xs =>
    refine ⟨(pySum (x :: xs), pySum (x :: xs) / (n : ℚ), xs.foldl min x,
      xs.foldl max x,
      if (x :: xs).length > 1 then sampleVarApprox (x :: xs) else 0), ?_⟩
    simp [end_of_run_stats, pyMin, pyMax, hn]

/-- C10: with a successful connection, the end-of-run statistics of
`execute_all_queries` are well-defined exactly when at least one round is
requested: `iterations = 0` raises a division by zero (abnormal
termination), while `iterations ≥ 1` terminates normally. -/
theorem C10_round_stats_need_a_round (mode : Mode) (store : Bool)
    (env : String) (qenv : Nat → Nat → QueryEnvt) (roundDur : Nat → ℚ)
    (listing : List (String × String)) (dt : ℚ) (iters : Nat) :
    execute_all_queries (some dt) mode store env qenv roundDur listing 0
        initState = .error "ZeroDivisionError: division by zero" ∧
    (1 ≤ iters →
      ∃ st', execute_all_queries (some dt) mode store env qenv roundDur
          listing iters initState = .ok st') := by
  constructor
  · simp [execute_all_queries, end_of_run_stats]
  · intro hi
    have hne : ((List.range iters).map (· + 1)).map roundDur ≠ [] := by
      intro hc
      have := congrArg List.length hc
      simp at this
      omega
    obtain ⟨v, hv⟩ :=
      end_stats_ok (((List.range iters).map (· + 1)).map roundDur) iters hne
        (by omega)
    refine ⟨RunState.mk
      (initState.results ++
        resultsUpTo mode store env qenv (load_sql_files listing) iters)
      (((List.range iters).map (· + 1)).map roundDur) dt, ?_⟩
    simp only [execute_all_queries, List.map_map] at hv ⊢
    rw [hv]

/-- Witness for C10 at one requested round. -/
theorem C10_round_stats_need_a_round_witness :
    ∃ st', execute_all_queries (some 1) .simple false "e"
        (fun _ _ => defaultQE) (fun _ => (1 : ℚ)) [] 1 initState = .ok st' :=
  (C10_round_stats_need_a_round .simple false "e" (fun _ _ => defaultQE)
    (fun _ => (1 : ℚ)) [] 1 1).2 (le_refl 1)

/-- Lexicographic string comparison is total. -/
theorem strLeB_go_total : ∀ xs ys : List Char,
    strLeB.go xs ys = true ∨ strLeB.go ys xs = true := by
  intro xs
  induction xs with
  | nil => intro ys; left; simp [strLeB.go]
  | cons x xt ih =>
    intro ys
    cases ys with
    | nil => right; simp [strLeB.go]
    | cons y yt =>
      simp only [strLeB.go]
      rcases Nat.lt_trichotomy x.toNat y.toNat with h | h | h
      · left; rw [if_pos h]
      · rcases ih yt with h' | h'
        · left; rw [if_neg (by omega), if_neg (by omega)]; exact h'
        · right; rw [if_neg (by omega), if_neg (by omega)]; exact h'
      · right; rw [if_pos h]

/-- Lexicographic string comparison is transitive. -/
theorem strLeB_go_trans : ∀ xs ys zs : List Char, strLeB.go xs ys = true →
    strLeB.go ys zs = true → strLeB.go xs zs = true := by
  intro xs
  induction xs with
  | nil => intro ys zs h1 h2; simp [strLeB.go]
  | cons x xt ih =>
    intro ys zs h1 h2
    cases ys with
    | nil => simp [strLeB.go] at h1
    | cons y yt =>
      cases zs with
      | nil => simp [strLeB.go] at h2
      | cons z zt =>
        simp only [strLeB.go] at h1 h2 ⊢
        rcases Nat.lt_trichotomy x.toNat y.toNat with hxy | hxy | hxy
        · rcases Nat.lt_trichotomy y.toNat z.toNat with hyz | hyz | hyz
          · rw [if_pos (by omega)]
          · rw [if_pos (by omega)]
          · rw [if_neg (by omega), if_pos (by omega)] at h2
            exact absurd h2 (by simp)
        · rcases Nat.lt_trichotomy y.toNat z.toNat with hyz | hyz | hyz
          · rw [if_pos (by omega)]
          · rw [if_neg (by omega), if_neg (by omega)] at h1
            rw [if_neg (by omega), if_neg (by omega)] at h2
            rw [if_neg (by omega), if_neg (by omega)]
            exact ih yt zt h1 h2
          · rw [if_neg (by omega), if_pos (by omega)] at h2
            exact absurd h2 (by simp)
        · rw [if_neg (by omega), if_pos (by omega)] at h1
          exact absurd h1 (by simp)

/-- `strLeB` is total. -/
theorem strLeB_total (a b : String) : strLeB a b = true ∨ strLeB b a = true :=
  strLeB_go_total a.data b.data

/-- `strLeB` is transitive. -/
theorem strLeB_trans {a b c : String} (h1 : strLeB a b = true)
    (h2 : strLeB b c = true) : strLeB a c = true :=
  strLeB_go_trans a.data b.data c.data h1 h2

/-- Stable insertion produces a permutation of consing. -/
theorem insertSorted_perm (x : String × String) :
    ∀ l : List (String × String), (insertSorted x l).Perm (x :: l) := by
  intro l
  induction l with
  | nil => simp [insertSorted]
  | cons y ys ih =>
    simp only [insertSorted]
    by_cases h : strLeB y.1 x.1 = true
    · rw [if_pos h]
      exact ((ih.cons y).trans (List.Perm.swap x y ys))
    · rw [if_neg h]

/-- Insertion sort permutes its input. -/
theorem sortByName_perm :
    ∀ l : List (String × String), (sortByName l).Perm l := by
  intro l
  induction l with
  | nil => simp [sortByName]
  | cons f fs ih =>
    exact (insertSorted_perm f (sortByName fs)).trans (ih.cons f)

/-- Stable insertion preserves sortedness by filename. -/
theorem insertSorted_pairwise (x : String × String) :
    ∀ l : List (String × String),
      l.Pairwise (fun a b => strLeB a.1 b.1 = true) →
      (insertSorted x l).Pairwise (fun a b => strLeB a.1 b.1 = true) := by
  intro l
  induction l with
  | nil => intro _; simp [insertSorted]
  | cons y ys ih =>
    intro h
    rw [List.pairwise_cons] at h
    simp only [insertSorted]
    by_cases hyx : strLeB y.1 x.1 = true
    · rw [if_pos hyx]
      rw [List.pairwise_cons]
      refine ⟨?_, ih h.2⟩
      intro z hz
      have hz' : z ∈ x :: ys := (insertSorted_perm x ys).mem_iff.mp hz
      rcases List.mem_cons.mp hz' with hz2 | hz2
      · rw [hz2]; exact hyx
      · exact h.1 z hz2
    · rw [if_neg hyx]
      have hxy : strLeB x.1 y.1 = true := by
        rcases strLeB_total x.1 y.1 with h' | h'
        · exact h'
        · exact absurd h' hyx
      rw [List.pairwise_cons]
      refine ⟨?_, List.pairwise_cons.mpr h⟩
      intro z hz
      rcases List.mem_cons.mp hz with hz2 | hz2
      · rw [hz2]; exact hxy
      · exact strLeB_trans hxy (h.1 z hz2)

/-- Insertion sort sorts by filename. -/
theorem sortByName_pairwise :
    ∀ l : List (String × String),
      (sortByName l).Pairwise (fun a b => strLeB a.1 b.1 = true) := by
  intro l
  induction l with
  | nil => simp [sortByName]
  | cons f fs ih => exact insertSorted_pairwise f (sortByName fs) ih

/-- `filterMap` transports a pairwise relation along the kept elements. -/
theorem pairwise_filterMap_of_pairwise {α β : Type} (g : α → Option β)
    (R : α → α → Prop) (S : β → β → Prop)
    (hg : ∀ a b x y, R a b → g a = some x → g b = some y → S x y) :
    ∀ l : List α, l.Pairwise R → (l.filterMap g).Pairwise S := by
  intro l
  induction l with
  | nil => intro _; simp
  | cons a t ih =>
    intro h
    rw [List.pairwise_cons] at h
    rw [List.filterMap_cons]
    cases hga : g a with
    | none => exact ih h.2
    | some x =>
      rw [List.pairwise_cons]
      refine ⟨?_, ih h.2⟩
      intro y hy
      obtain ⟨b, hb, hgb⟩ := List.mem_filterMap.mp hy
      exact hg a b x y (h.1 b hb) hga hgb

/-- Every dispatch strategy names its result with the supplied query name. -/
theorem dispatch_query_name (mode : Mode) (store : Bool) (env : String)
    (qe : QueryEnvt) (name : String) :
    (dispatch mode store env qe name).query_name = name := by
  cases mode with
  | simple =>
    cases h : qe.dbOutcome <;> simp [dispatch, execute_query_simple, h]
  | detailed =>
    cases h : qe.dbOutcome <;>
      simp [dispatch, execute_query_with_detailed_timing, h]
  | explain =>
    cases h : qe.explainOutcome <;>
      simp [dispatch, execute_query_with_explain, get_explain_analyze_json, h]

/-- C7 counterexample: a directory with a hidden `.h.sql` file (not matched
by the `*.sql` glob) and an `a.sql` file of pure whitespace (stripped to
empty and skipped) yields zero records, not one per `.sql` file. -/
theorem C7_loader_counterexample :
    (load_sql_files [(".h.sql", "x"), ("a.sql", " ")]).length ≠ 2 := by
  decide

/-- C7 (amended): every non-hidden `.sql` file whose stripped content is
non-empty yields exactly one QueryRecord (the output is a permutation of
the one-record-per-kept-file list), the output is sorted lexicographically
by filename, and each round executes the records in exactly that order. -/
theorem C7_loader_order (listing : List (String × String)) :
    (load_sql_files listing).Perm
      ((listing.filter (fun f => globSql f.1)).filterMap
        (fun f =>
          if pyStrip f.2 = "" then none
          else some (QueryRecord.mk f.1 (pyStrip f.2)))) ∧
    (load_sql_files listing).Pairwise
      (fun a b => strLeB a.filename b.filename = true) ∧
    (∀ mode store env qenv r,
      (runRound mode store env qenv (load_sql_files listing) r).map
          (fun x => x.query_name) =
        (load_sql_files listing).map (fun rec => qname rec.filename r)) := by
  refine ⟨?_, ?_, ?_⟩
  · exact (sortByName_perm (listing.filter (fun f => globSql f.1))).filterMap _
  · refine pairwise_filterMap_of_pairwise _ _ _ ?_
      (sortByName (listing.filter (fun f => globSql f.1)))
      (sortByName_pairwise _)
    intro a b x y hR hga hgb
    have hx : x.filename = a.1 := by
      by_cases h : pyStrip a.2 = "" <;> simp [h] at hga
      rw [← hga]
    have hy : y.filename = b.1 := by
      by_cases h : pyStrip b.2 = "" <;> simp [h] at hgb
      rw [← hgb]
    rw [hx, hy]; exact hR
  · intro mode store env qenv r
    simp only [runRound, List.map_map]
    have : (fun x => ExecResult.query_name x) ∘
        (fun p : Nat × QueryRecord =>
          dispatch mode store env (qenv r p.1) (qname p.2.filename r)) =
        (fun p : Nat × QueryRecord => qname p.2.filename r) := by
      funext p
      exact dispatch_query_name mode store env (qenv r p.1)
        (qname p.2.filename r)
    rw [this]
    have h2 : (fun p : Nat × QueryRecord => qname p.2.filename r) =
        (fun rec : QueryRecord => qname rec.filename r) ∘ Prod.snd := rfl
    rw [h2, ← List.map_map, List.enum_map_snd]

/-- `Char.ofNat` round-trips on the basic plane. -/
theorem char_toNat_ofNat (n : Nat) (h : n < 55296) :
    (Char.ofNat n).toNat = n := by
  unfold Char.ofNat
  rw [dif_pos (Or.inl h)]
  rfl

/-- Characters with equal code points are equal. -/
theorem char_eq_of_toNat (a b : Char) (h : a.toNat = b.toNat) : a = b :=
  Char.ext (UInt32.ext h)

/-- A whitespace character has a code point at most 32. -/
theorem pyIsSpace_toNat {c : Char} (h : pyIsSpace c = true) : c.toNat ≤ 32 := by
  unfold pyIsSpace at h
  simp only [Bool.or_eq_true, beq_iff_eq] at h
  rcases h with ((((h | h) | h) | h) | h) | h <;> subst h <;> decide

/-- Characters with larger code points are not whitespace. -/
theorem pyIsSpace_false {c : Char} (h : 33 ≤ c.toNat) :
    pyIsSpace c = false := by
  cases hx : pyIsSpace c
  · rfl
  · have := pyIsSpace_toNat hx
    omega

/-- Upper-casing does not change whether a character is whitespace. -/
theorem pyIsSpace_upperChar (c : Char) :
    pyIsSpace (upperChar c) = pyIsSpace c := by
  unfold upperChar
  by_cases h : 97 ≤ c.toNat ∧ c.toNat ≤ 122
  · rw [if_pos h]
    have h1 : (Char.ofNat (c.toNat - 32)).toNat = c.toNat - 32 :=
      char_toNat_ofNat _ (by omega)
    rw [pyIsSpace_false (by rw [h1]; omega), pyIsSpace_false (by omega)]
  · rw [if_neg h]

/-- Upper-casing is idempotent. -/
theorem upperChar_upperChar (c : Char) :
    upperChar (upperChar c) = upperChar c := by
  simp only [upperChar]
  by_cases h : 97 ≤ c.toNat ∧ c.toNat ≤ 122
  · rw [if_pos h]
    have h1 : (Char.ofNat (c.toNat - 32)).toNat = c.toNat - 32 :=
      char_toNat_ofNat _ (by omega)
    rw [if_neg (by rw [h1]; omega)]
  · rw [if_neg h, if_neg h]

/-- Lower-casing after upper-casing equals plain lower-casing. -/
theorem lowerChar_upperChar (c : Char) :
    lowerChar (upperChar c) = lowerChar c := by
  simp only [upperChar, lowerChar]
  by_cases h : 97 ≤ c.toNat ∧ c.toNat ≤ 122
  · rw [if_pos h]
    have h1 : (Char.ofNat (c.toNat - 32)).toNat = c.toNat - 32 :=
      char_toNat_ofNat _ (by omega)
    have h2 : c.toNat - 32 + 32 = c.toNat := by omega
    rw [if_pos (by rw [h1]; omega), h1, h2, if_neg (by omega)]
    exact char_eq_of_toNat _ _ (char_toNat_ofNat _ (by omega))
  · rw [if_neg h]

/-- The head of a `dropWhile` residue fails the predicate. -/
theorem dropWhile_head_fails (p : Char → Bool) (l : List Char) (c : Char)
    (h : (l.dropWhile p).head? = some c) : p c = false := by
  have := List.head?_dropWhile_not p l
  rw [h] at this
  exact this

/-- `dropWhile` is the identity when the head already fails the predicate. -/
theorem dropWhile_of_head_fails (p : Char → Bool) (m : List Char)
    (h : ∀ c, m.head? = some c → p c = false) : m.dropWhile p = m := by
  cases m with
  | nil => rfl
  | cons c t =>
    rw [List.dropWhile_cons, h c rfl]
    simp

/-- `dropWhile` is idempotent. -/
theorem dropWhile_dropWhile (p : Char → Bool) (l : List Char) :
    (l.dropWhile p).dropWhile p = l.dropWhile p :=
  dropWhile_of_head_fails p _ (dropWhile_head_fails p l)

/-- `dropWhile` keeps the last element when the residue is non-empty. -/
theorem getLast?_dropWhile (p : Char → Bool) :
    ∀ l : List Char, l.dropWhile p ≠ [] →
      (l.dropWhile p).getLast? = l.getLast? := by
  intro l
  induction l with
  | nil => intro h; exact absurd rfl h
  | cons c t ih =>
    intro h
    rw [List.dropWhile_cons]
    by_cases hc : p c = true
    · rw [hc]
      simp only [if_true]
      rw [List.dropWhile_cons, hc] at h
      simp only [if_true] at h
      have ht : t ≠ [] := by
        intro h0
        rw [h0] at h
        exact h rfl
      obtain ⟨x, xs, rfl⟩ := List.exists_cons_of_ne_nil ht
      rw [ih h, List.getLast?_cons_cons]
    · rw [Bool.not_eq_true] at hc
      rw [hc]
      simp

/-- Stripping is idempotent. -/
theorem stripChars_idem (l : List Char) :
    stripChars (stripChars l) = stripChars l := by
  unfold stripChars
  set A := l.reverse.dropWhile pyIsSpace with hA
  set S := A.reverse.dropWhile pyIsSpace with hS
  have step1 : S.reverse.dropWhile pyIsSpace = S.reverse := by
    apply dropWhile_of_head_fails
    intro c hc
    have hSne : S ≠ [] := by
      intro h0
      rw [h0] at hc
      simp at hc
    rw [List.head?_reverse] at hc
    rw [hS] at hc
    rw [getLast?_dropWhile pyIsSpace A.reverse (hS ▸ hSne)] at hc
    rw [List.getLast?_reverse] at hc
    exact dropWhile_head_fails pyIsSpace l.reverse c hc
  rw [step1, List.reverse_reverse, hS, dropWhile_dropWhile]

/-- Stripping commutes with upper-casing. -/
theorem stripChars_map_upper (l : List Char) :
    stripChars (l.map upperChar) = (stripChars l).map upperChar := by
  have hpf : (pyIsSpace ∘ upperChar) = pyIsSpace := by
    funext c
    exact pyIsSpace_upperChar c
  unfold stripChars
  rw [← List.map_reverse, List.dropWhile_map, hpf, ← List.map_reverse,
    List.dropWhile_map, hpf]

/-- A successful association-list lookup is a membership. -/
theorem lookup_pair_mem :
    ∀ (l : List (String × String)) (k v : String),
      l.lookup k = some v → (k, v) ∈ l := by
  intro l
  induction l with
  | nil => intro k v h; simp [List.lookup] at h
  | cons a t ih =>
    intro k v h
    obtain ⟨k', v'⟩ := a
    by_cases hk : k = k'
    · subst hk
      simp [List.lookup] at h
      rw [h]
      exact List.mem_cons_self _ _
    · rw [List.lookup] at h
      rw [show (k == k') = false from beq_eq_false_iff_ne.mpr hk] at h
      exact List.mem_cons_of_mem _ (ih k v h)

/-- Every value of the scenario dict is a fixed point of `map_scenario`. -/
theorem scenario_value_fixed {k v : String}
    (h : scenarioMapping.lookup k = some v) : map_scenario v = v := by
  have hm := lookup_pair_mem scenarioMapping k v h
  fin_cases hm <;> decide

/-- C9 counterexample: the non-empty all-whitespace input `" "` maps to the
empty string (its strip is empty and missing from the dict, and upper-casing
preserves emptiness), which then maps to `"NONE"`: idempotence fails. -/
theorem C9_scenario_mapping_counterexample :
    map_scenario (map_scenario " ") ≠ map_scenario " " := by decide

/-- C9 (amended): `map_scenario` is total, maps the empty string to NONE,
fixes every canonical label, and is idempotent on every input that is empty
or has a non-empty strip (the sole exceptions are non-empty all-whitespace
strings, whose image is the empty string, which maps further to NONE). -/
theorem C9_scenario_mapping (s : String)
    (h : s = "" ∨ pyStrip s ≠ "") :
    map_scenario "" = "NONE" ∧
    (∀ lbl ∈ canonicalLabels, map_scenario lbl = lbl) ∧
    map_scenario (map_scenario s) = map_scenario s := by
  refine ⟨rfl, by decide, ?_⟩
  by_cases h0 : s = ""
  · subst h0; decide
  · have hs : pyStrip s ≠ "" := h.resolve_left h0
    have hval : map_scenario s =
        match scenarioMapping.lookup (pyLower (pyStrip s)) with
        | some v => v
        | none => pyUpper (pyStrip s) := by
      rw [map_scenario, if_neg h0]
    cases hl : scenarioMapping.lookup (pyLower (pyStrip s)) with
    | some v =>
      rw [hl] at hval
      rw [hval]
      exact scenario_value_fixed hl
    | none =>
      rw [hl] at hval
      rw [hval]
      have hyd : (pyUpper (pyStrip s)).data =
          (stripChars s.data).map upperChar := rfl
      have hyne : pyUpper (pyStrip s) ≠ "" := by
        intro h1
        apply hs
        apply String.ext
        have h2 : (pyUpper (pyStrip s)).data = ([] : List Char) := by
          rw [h1]
        rw [hyd] at h2
        exact List.map_eq_nil_iff.mp h2
      have hysd : pyStrip (pyUpper (pyStrip s)) = pyUpper (pyStrip s) := by
        apply String.ext
        show stripChars (pyUpper (pyStrip s)).data = _
        rw [hyd, stripChars_map_upper, stripChars_idem]
      have hkey : pyLower (pyStrip (pyUpper (pyStrip s))) =
          pyLower (pyStrip s) := by
        rw [hysd]
        apply String.ext
        show ((stripChars s.data).map upperChar).map lowerChar =
          (stripChars s.data).map lowerChar
        rw [List.map_map]
        congr 1
        funext c
        exact lowerChar_upperChar c
      have hupp : pyUpper (pyStrip (pyUpper (pyStrip s))) =
          pyUpper (pyStrip s) := by
        rw [hysd]
        apply String.ext
        show ((stripChars s.data).map upperChar).map upperChar =
          (stripChars s.data).map upperChar
        rw [List.map_map]
        congr 1
        funext c
        exact upperChar_upperChar c
      rw [map_scenario, if_neg hyne, hkey, hl]
      exact hupp

/-- Witness for C9 at the ordinary input `"Foo"`. -/
theorem C9_scenario_mapping_witness :
    map_scenario "" = "NONE" ∧
    (∀ lbl ∈ canonicalLabels, map_scenario lbl = lbl) ∧
    map_scenario (map_scenario "Foo") = map_scenario "Foo" :=
  C9_scenario_mapping "Foo" (Or.inr (by decide))

/-- Unfolding `bufLookup` over a cons cell. -/
theorem bufLookup_cons (a1 : String) (a2 : Int) (rest : List (String × Int))
    (k : String) :
    bufLookup ((a1, a2) :: rest) k = if a1 = k then a2 else bufLookup rest k := by
  by_cases h : a1 = k
  · rw [if_pos h]
    simp [bufLookup, List.find?, h]
  · rw [if_neg h]
    simp only [bufLookup, List.find?, beq_eq_false_iff_ne.mpr h]

/-- Looking up after a dict-add: the added key gains `n`, others unchanged. -/
theorem addBuf_lookup (k' : String) (n : Int) :
    ∀ (agg : List (String × Int)) (k : String),
      bufLookup (addBuf agg k' n) k =
        bufLookup agg k + (if k = k' then n else 0) := by
  intro agg
  induction agg with
  | nil =>
    intro k
    show bufLookup [(k', n)] k = _
    rw [bufLookup_cons]
    by_cases h : k = k'
    · rw [if_pos h.symm, if_pos h]
      simp [bufLookup]
    · rw [if_neg (fun hc => h hc.symm), if_neg h]
      simp [bufLookup]
  | cons a rest ih =>
    intro k
    obtain ⟨a1, a2⟩ := a
    by_cases h1 : a1 = k'
    · rw [show addBuf ((a1, a2) :: rest) k' n = (a1, a2 + n) :: rest from by
        simp [addBuf, h1]]
      rw [bufLookup_cons, bufLookup_cons]
      by_cases h2 : a1 = k
      · rw [if_pos h2, if_pos h2, if_pos (h2.symm.trans h1)]
      · rw [if_neg h2, if_neg h2,
          if_neg (show ¬k = k' from fun hc => h2 (h1.trans hc.symm)), add_zero]
    · rw [show addBuf ((a1, a2) :: rest) k' n = (a1, a2) :: addBuf rest k' n
        from by simp [addBuf, h1]]
      rw [bufLookup_cons, bufLookup_cons]
      by_cases h2 : a1 = k
      · rw [if_pos h2, if_pos h2,
          if_neg (show ¬k = k' from fun hc => h1 (h2.trans hc)), add_zero]
      · rw [if_neg h2, if_neg h2]
        exact ih k

/-- The per-node collection step adds, for each key, its multiplicity in the
key list times the node's numeric counter value. -/
theorem collectKeys_lookup :
    ∀ (ks : List String) (fs : List (String × PVal))
      (agg : List (String × Int)) (k : String),
      bufLookup (collectKeys ks fs agg) k =
        bufLookup agg k + (ks.count k : Int) * nodeVal fs k := by
  intro ks
  induction ks with
  | nil => intro fs agg k; simp [collectKeys]
  | cons k' rest ih =>
    intro fs agg k
    have hcount : ((List.count k (k' :: rest) : Nat) : Int) =
        (List.count k rest : Int) + (if k = k' then 1 else 0) := by
      rw [List.count_cons]
      by_cases h : k = k'
      · subst h; simp
      · simp [h, show (k' == k) = false from
          beq_eq_false_iff_ne.mpr (fun hc => h hc.symm)]
    have main : collectKeys (k' :: rest) fs agg = collectKeys rest fs agg →
        (k = k' → nodeVal fs k = 0) →
        bufLookup (collectKeys (k' :: rest) fs agg) k =
          bufLookup agg k + (((k' :: rest).count k : Nat) : Int) *
            nodeVal fs k := by
      intro hstep hzero
      rw [hstep, ih, hcount]
      by_cases h : k = k'
      · rw [if_pos h, hzero h]
        ring
      · rw [if_neg h, add_zero]
    rcases hv : pyGet fs k' with _ | v
    · exact main (by simp [collectKeys, hv]) (fun h => by simp [nodeVal, h, hv])
    · cases v with
      | vnull =>
        exact main (by simp [collectKeys, hv])
          (fun h => by simp [nodeVal, h, hv])
      | vstr sv =>
        exact main (by simp [collectKeys, hv])
          (fun h => by simp [nodeVal, h, hv])
      | vnum n =>
        rw [show collectKeys (k' :: rest) fs agg =
            collectKeys rest fs (addBuf agg k' n) from by
          simp [collectKeys, hv]]
        rw [ih, addBuf_lookup, hcount]
        by_cases h : k = k'
        · rw [if_pos h, if_pos h]
          have hval : nodeVal fs k = n := by simp [nodeVal, h, hv]
          rw [hval]
          ring
        · rw [if_neg h, if_neg h, add_zero, add_zero]

/-- Unfolding `bufListVal` over a cons cell. -/
theorem bufListVal_cons (a1 : String) (v : PVal)
    (rest : List (String × PVal)) (k : String) :
    bufListVal ((a1, v) :: rest) k =
      if a1 = k then
        (match v with | PVal.vnum n => n | _ => 0)
      else bufListVal rest k := by
  by_cases h : a1 = k
  · rw [if_pos h]
    simp only [bufListVal, List.find?, h, beq_self_eq_true]
    cases v <;> rfl
  · rw [if_neg h]
    simp only [bufListVal, List.find?, beq_eq_false_iff_ne.mpr h]

/-- The per-node buffer dict built by `extract_plan_tree` holds exactly the
node's numeric counter values on the recognized keys. -/
theorem bufListVal_mkBufList :
    ∀ (ks : List String) (fs : List (String × PVal)) (k : String),
      bufListVal (mkBufList ks fs) k = if k ∈ ks then nodeVal fs k else 0 := by
  intro ks
  induction ks with
  | nil => intro fs k; simp [mkBufList, bufListVal, List.find?]
  | cons k' rest ih =>
    intro fs k
    rcases hv : pyGet fs k' with _ | v
    · rw [show mkBufList (k' :: rest) fs = mkBufList rest fs from by
        simp [mkBufList, hv]]
      rw [ih]
      by_cases h : k = k'
      · subst h
        by_cases hm : k ∈ rest
        · simp [hm]
        · simp [hm, nodeVal, hv]
      · have hmem : (k ∈ k' :: rest) ↔ (k ∈ rest) := by
          constructor
          · intro hc
            rcases List.mem_cons.mp hc with hc2 | hc2
            · exact absurd hc2 h
            · exact hc2
          · exact fun hc => List.mem_cons_of_mem _ hc
        by_cases hm : k ∈ rest
        · rw [if_pos hm, if_pos (hmem.mpr hm)]
        · rw [if_neg hm, if_neg (fun hc => hm (hmem.mp hc))]
    · rw [show mkBufList (k' :: rest) fs = (k', v) :: mkBufList rest fs from by
        simp [mkBufList, hv]]
      rw [bufListVal_cons]
      by_cases h : k' = k
      · rw [if_pos h]
        have hmem : k ∈ k' :: rest := by rw [← h]; exact List.mem_cons_self _ _
        rw [if_pos hmem]
        have : pyGet fs k = some v := by rw [← h]; exact hv
        cases v <;> simp [nodeVal, this]
      · rw [if_neg h, ih]
        have hmem : (k ∈ k' :: rest) ↔ (k ∈ rest) := by
          constructor
          · intro hc
            rcases List.mem_cons.mp hc with hc2 | hc2
            · exact absurd hc2.symm h
            · exact hc2
          · exact fun hc => List.mem_cons_of_mem _ hc
        by_cases hm : k ∈ rest
        · rw [if_pos hm, if_pos (hmem.mpr hm)]
        · rw [if_neg hm, if_neg (fun hc => hm (hmem.mp hc))]

/-- `treeNodeVal` on a constructed node reads the buffer dict. -/
theorem treeNodeVal_mk (sc : List (String × Option PVal))
    (bufs : Option (List (String × PVal))) (ch : List PlanTree)
    (ws : Option (List WorkerRec)) (k : String) :
    treeNodeVal (PlanTree.mk sc bufs ch ws) k =
      match bufs with
      | none => 0
      | some l => bufListVal l k := by
  cases bufs <;> rfl

/-- The multiplicity-weighted node value coincides with the membership-
gated node value on the duplicate-free recognized key list. -/
theorem count_nodeVal (fs : List (String × PVal)) (k : String) :
    (bufferKeys.count k : Int) * nodeVal fs k =
      if k ∈ bufferKeys then nodeVal fs k else 0 := by
  by_cases hm : k ∈ bufferKeys
  · rw [List.count_eq_one_of_mem (by decide) hm, if_pos hm]
    ring
  · rw [List.count_eq_zero_of_not_mem hm, if_neg hm]
    ring

/-- Unfolding `extract_plan_tree` at a constructor. -/
theorem extract_plan_tree_mk (fs : List (String × PVal))
    (plans : List PNode) (ws : Option (List PWorker)) :
    extract_plan_tree (.mk fs plans ws) =
      PlanTree.mk (scalarKeys.map (fun kv => (kv.1, pyGet fs kv.2)))
        (let b := mkBufList bufferKeys fs
         if b = [] then none else some b)
        (extract_plan_tree_list plans)
        (match ws with
         | none => none
         | some ws' => some (extract_worker_list ws')) := by
  rw [extract_plan_tree.eq_def]

/-- Unfolding the children-only sum at a constructor. -/
theorem specTreeSumNW_mk (sc : List (String × Option PVal))
    (bufs : Option (List (String × PVal))) (ch : List PlanTree)
    (ws : Option (List WorkerRec)) (k : String) :
    specTreeSumNW k (PlanTree.mk sc bufs ch ws) =
      treeNodeVal (PlanTree.mk sc bufs ch ws) k + specTreeSumListNW k ch := by
  rw [specTreeSumNW.eq_def]

/-- The buffer-dict value stored on a freshly decoded node equals its
membership-gated document counter value. -/
theorem treeNodeVal_extract (fs : List (String × PVal)) (plans : List PNode)
    (ws : Option (List PWorker)) (k : String) :
    treeNodeVal (extract_plan_tree (.mk fs plans ws)) k =
      if k ∈ bufferKeys then nodeVal fs k else 0 := by
  rw [extract_plan_tree_mk, treeNodeVal_mk]
  rcases hb : mkBufList bufferKeys fs with _ | ⟨e, l⟩
  · simp only [hb, if_pos rfl]
    rw [← bufListVal_mkBufList bufferKeys fs k, hb]
    rfl
  · simp only [hb]
    rw [if_neg (by simp)]
    rw [← bufListVal_mkBufList bufferKeys fs k, hb]

mutual
/-- Aggregating buffers over a document node adds exactly the children-only
tree sum of the decoded tree. -/
theorem collect_eq_specNW (p : PNode) (agg : List (String × Int))
    (k : String) :
    bufLookup (collect_buffers p agg) k =
      bufLookup agg k + specTreeSumNW k (extract_plan_tree p) := by
  match p with
  | .mk fs plans ws =>
    rw [show collect_buffers (.mk fs plans ws) agg =
        collect_buffers_list plans (collectKeys bufferKeys fs agg) from by
      rw [collect_buffers.eq_def]]
    rw [collect_list_eq_specNW plans _ k, collectKeys_lookup, count_nodeVal]
    rw [extract_plan_tree_mk, specTreeSumNW_mk, ← extract_plan_tree_mk,
      treeNodeVal_extract]
    ring

/-- List version of `collect_eq_specNW`. -/
theorem collect_list_eq_specNW (ps : List PNode) (agg : List (String × Int))
    (k : String) :
    bufLookup (collect_buffers_list ps agg) k =
      bufLookup agg k + specTreeSumListNW k (extract_plan_tree_list ps) := by
  match ps with
  | [] =>
    rw [show collect_buffers_list [] agg = agg from by
      rw [collect_buffers_list.eq_def]]
    rw [show extract_plan_tree_list ([] : List PNode) = [] from by
      rw [extract_plan_tree_list.eq_def]]
    rw [show specTreeSumListNW k [] = 0 from by rw [specTreeSumListNW.eq_def]]
    ring
  | p :: rest =>
    rw [show collect_buffers_list (p :: rest) agg =
        collect_buffers_list rest (collect_buffers p agg) from by
      rw [collect_buffers_list.eq_def]]
    rw [collect_list_eq_specNW rest _ k, collect_eq_specNW p agg k]
    rw [show extract_plan_tree_list (p :: rest) =
        extract_plan_tree p :: extract_plan_tree_list rest from by
      rw [extract_plan_tree_list.eq_def]]
    rw [show specTreeSumListNW k
          (extract_plan_tree p :: extract_plan_tree_list rest) =
        specTreeSumNW k (extract_plan_tree p) +
          specTreeSumListNW k (extract_plan_tree_list rest) from by
      rw [specTreeSumListNW.eq_def]]
    ring
end

/-- C1 counterexample: a document whose only buffer counter sits on a plan
nested inside a per-worker sub-execution.  The decoded tree carries the
counter (value 5), but `collect_buffers` never descends into workers, so the
summary aggregate is 0. -/
theorem C1_buffer_aggregation_counterexample :
    summaryBufVal
        (summarize_plan
          ⟨some (PNode.mk [] []
              (some [PWorker.mk []
                  (some (PNode.mk [("Shared Hit Blocks", PVal.vnum 5)] []
                    none))])),
            none, none, none⟩) "Shared Hit Blocks" ≠
      specTreeSum "Shared Hit Blocks"
        (summarize_plan
          ⟨some (PNode.mk [] []
              (some [PWorker.mk []
                  (some (PNode.mk [("Shared Hit Blocks", PVal.vnum 5)] []
                    none))])),
            none, none, none⟩).complete_plan_tree := by
  decide

/-- C1 (amended): for every decoded plan document and buffer counter name,
the aggregated value in the plan summary equals the sum of that counter
over the nodes reachable through the `Plans`-children chain of the decoded
tree (absent counters contributing 0); plan nodes nested inside per-worker
sub-executions are not included in the aggregate. -/
theorem C1_buffer_aggregation (top : TopDoc) (k : String) :
    summaryBufVal (summarize_plan top) k =
      specTreeSumNW k (summarize_plan top).complete_plan_tree := by
  have h := collect_eq_specNW (top.plan.getD emptyPNode) [] k
  have h0 : bufLookup [] k = 0 := rfl
  rw [h0, zero_add] at h
  have hsum : summaryBufVal (summarize_plan top) k =
      bufLookup (collect_buffers (top.plan.getD emptyPNode) []) k := by
    rcases hb : collect_buffers (top.plan.getD emptyPNode) [] with _ | ⟨e, l⟩
    · simp [summaryBufVal, summarize_plan, hb, bufLookup]
    · simp [summaryBufVal, summarize_plan, hb]
  rw [hsum, h]
  rfl

/-- The fuel argument of `decDigitsAux` is irrelevant once sufficient. -/
theorem decDigitsAux_fuel :
    ∀ (n f1 f2 : Nat), n < f1 → n < f2 →
      decDigitsAux f1 n = decDigitsAux f2 n := by
  intro n
  induction n using Nat.strong_induction_on with
  | _ n ih =>
    intro f1 f2 h1 h2
    cases f1 with
    | zero => omega
    | succ g1 =>
      cases f2 with
      | zero => omega
      | succ g2 =>
        simp only [decDigitsAux]
        by_cases h10 : n < 10
        · rw [if_pos h10, if_pos h10]
        · rw [if_neg h10, if_neg h10]
          congr 1
          exact ih (n / 10) (by omega) g1 g2 (by omega) (by omega)

/-- Recurrence satisfied by the decimal rendering. -/
theorem decDigits_unfold (n : Nat) :
    decDigits n =
      if n < 10 then [digitChar n]
      else decDigits (n / 10) ++ [digitChar (n % 10)] := by
  show decDigitsAux (n + 1) n = _
  rw [show decDigitsAux (n + 1) n =
      (if n < 10 then [digitChar n]
       else decDigitsAux n (n / 10) ++ [digitChar (n % 10)]) from by
    simp only [decDigitsAux]]
  by_cases h : n < 10
  · rw [if_pos h, if_pos h]
  · rw [if_neg h, if_neg h]
    congr 1
    exact decDigitsAux_fuel (n / 10) n (n / 10 + 1) (by omega) (by omega)

/-- Code point of a digit character. -/
theorem digitChar_toNat (d : Nat) (h : d < 10) :
    (digitChar d).toNat = 48 + d :=
  char_toNat_ofNat (48 + d) (by omega)

/-- Every character of a decimal rendering is a digit. -/
theorem decDigits_digits :
    ∀ n : Nat, ∀ c ∈ decDigits n, 48 ≤ c.toNat ∧ c.toNat ≤ 57 := by
  intro n
  induction n using Nat.strong_induction_on with
  | _ n ih =>
    intro c hc
    rw [decDigits_unfold] at hc
    by_cases h : n < 10
    · rw [if_pos h] at hc
      simp only [List.mem_singleton] at hc
      subst hc
      rw [digitChar_toNat n h]
      omega
    · rw [if_neg h] at hc
      rcases List.mem_append.mp hc with hc2 | hc2
      · exact ih (n / 10) (by omega) c hc2
      · simp only [List.mem_singleton] at hc2
        subst hc2
        rw [digitChar_toNat _ (by omega)]
        omega

/-- A decimal rendering is never empty. -/
theorem decDigits_ne_nil (n : Nat) : decDigits n ≠ [] := by
  rw [decDigits_unfold]
  by_cases h : n < 10
  · rw [if_pos h]; simp
  · rw [if_neg h]; simp

/-- Decimal length is monotone in the number. -/
theorem decDigits_length_mono :
    ∀ n m : Nat, m ≤ n → (decDigits m).length ≤ (decDigits n).length := by
  intro n
  induction n using Nat.strong_induction_on with
  | _ n ih =>
    intro m hmn
    by_cases hn : n < 10
    · rw [decDigits_unfold m, decDigits_unfold n, if_pos (by omega),
        if_pos hn]
      simp
    · rw [decDigits_unfold n, if_neg hn]
      by_cases hm : m < 10
      · rw [decDigits_unfold m, if_pos hm]
        simp only [List.length_singleton, List.length_append]
        have : decDigits (n / 10) ≠ [] := decDigits_ne_nil _
        have : 1 ≤ (decDigits (n / 10)).length := by
          cases hd : decDigits (n / 10) with
          | nil => exact absurd hd (decDigits_ne_nil _)
          | cons a t => simp
        omega
      · rw [decDigits_unfold m, if_neg hm]
        simp only [List.length_append, List.length_singleton]
        have := ih (n / 10) (by omega) (m / 10) (by omega)
        omega

/-- Decimal rendering is injective. -/
theorem decDigits_inj :
    ∀ n m : Nat, decDigits m = decDigits n → m = n := by
  intro n
  induction n using Nat.strong_induction_on with
  | _ n ih =>
    intro m h
    by_cases hn : n < 10
    · by_cases hm : m < 10
      · rw [decDigits_unfold m, decDigits_unfold n, if_pos hm, if_pos hn]
          at h
        have h2 := congrArg (fun l => l.headI.toNat) h
        simp only [List.headI] at h2
        rw [digitChar_toNat m hm, digitChar_toNat n hn] at h2
        omega
      · exfalso
        have hlen := congrArg List.length h
        rw [decDigits_unfold m, decDigits_unfold n, if_neg hm, if_pos hn]
          at hlen
        simp only [List.length_append, List.length_singleton] at hlen
        have : 1 ≤ (decDigits (m / 10)).length := by
          cases hd : decDigits (m / 10) with
          | nil => exact absurd hd (decDigits_ne_nil _)
          | cons a t => simp
        omega
    · by_cases hm : m < 10
      · exfalso
        have hlen := congrArg List.length h
        rw [decDigits_unfold m, decDigits_unfold n, if_pos hm, if_neg hn]
          at hlen
        simp only [List.length_append, List.length_singleton] at hlen
        have : 1 ≤ (decDigits (n / 10)).length := by
          cases hd : decDigits (n / 10) with
          | nil => exact absurd hd (decDigits_ne_nil _)
          | cons a t => simp
        omega
      · rw [decDigits_unfold m, decDigits_unfold n, if_neg hm, if_neg hn]
          at h
        have hlen : (decDigits (m / 10)).length =
            (decDigits (n / 10)).length := by
          have := congrArg List.length h
          simp only [List.length_append, List.length_singleton] at this
          omega
        obtain ⟨hpre, htail⟩ := List.append_inj h hlen
        have hdiv : m / 10 = n / 10 := ih (n / 10) (by omega) (m / 10) hpre
        have hmod : m % 10 = n % 10 := by
          have h2 := congrArg (fun l => l.headI.toNat) htail
          simp only [List.headI] at h2
          rw [digitChar_toNat _ (by omega), digitChar_toNat _ (by omega)]
            at h2
          omega
        omega

/-- A decimal rendering that is a prefix of the rendering of a smaller or
equal number renders the same number. -/
theorem decDigits_prefix_eq (r r' : Nat)
    (h : decDigits r <+: decDigits r') (hle : r' ≤ r) : r' = r := by
  have h1 : (decDigits r).length ≤ (decDigits r').length := h.length_le
  have h2 : (decDigits r').length ≤ (decDigits r).length :=
    decDigits_length_mono r r' hle
  have heq : decDigits r = decDigits r' :=
    List.IsPrefix.eq_of_length h (by omega)
  exact (decDigits_inj r' r heq).symm

/-- The boolean prefix test decides list prefixes. -/
theorem isPrefixB_iff : ∀ p t : List Char, isPrefixB p t = true ↔ p <+: t := by
  intro p
  induction p with
  | nil => intro t; simp [isPrefixB]
  | cons a as ih =>
    intro t
    cases t with
    | nil => simp [isPrefixB, List.prefix_nil]
    | cons b bs =>
      simp [isPrefixB, List.cons_prefix_cons, ih bs, Bool.and_eq_true,
        beq_iff_eq]

/-- The boolean substring test decides list infixes. -/
theorem isInfixB_iff (p : List Char) :
    ∀ t : List Char, isInfixB p t = true ↔ p <:+: t := by
  intro t
  induction t with
  | nil => simp [isInfixB, isPrefixB_iff, List.infix_nil, List.prefix_nil]
  | cons c ts ih =>
    simp [isInfixB, Bool.or_eq_true, isPrefixB_iff, ih, List.infix_cons_iff]

/-- Core overlap argument: if the round marker `"_round" ++ D` occurs as a
substring of `F ++ "_round" ++ D'` where `F` contains no `"_round"` and `D'`
is all digits, the occurrence must start exactly at the marker boundary, so
`D` is a prefix of `D'`. -/
theorem marker_infix_clean (F D D' : List Char)
    (hF : ¬ ("_round".data <:+: F))
    (hD' : ∀ c ∈ D', 48 ≤ c.toNat ∧ c.toNat ≤ 57)
    (h : ("_round".data ++ D) <:+: (F ++ ("_round".data ++ D'))) :
    D <+: D' := by
  obtain ⟨u, v, huv⟩ := h
  rw [List.append_assoc u] at huv
  rcases Nat.lt_trichotomy u.length F.length with hlt | heq | hgt
  · exfalso
    have hu : u = F.take u.length := by
      have h1 := congrArg (List.take u.length) huv
      rw [List.take_left, List.take_append_of_le_length (le_of_lt hlt)] at h1
      exact h1
    have hFug : F = u ++ F.drop u.length := by
      conv_lhs => rw [← List.take_append_drop u.length F]
      rw [← hu]
    set g := F.drop u.length with hg
    have hglen : 1 ≤ g.length := by
      rw [hg, List.length_drop]
      omega
    have hX : ("_round".data ++ D) ++ v = g ++ ("_round".data ++ D') := by
      rw [hFug, List.append_assoc u] at huv
      exact List.append_cancel_left huv
    by_cases hg6 : 6 ≤ g.length
    · apply hF
      have hMg : "_round".data = g.take 6 := by
        have h1 := congrArg (List.take 6) hX
        rw [List.append_assoc, List.take_append_of_le_length hg6,
          show ("_round".data ++ (D ++ v)).take 6 = "_round".data from
            List.take_left' rfl] at h1
        exact h1
      refine ⟨u, g.drop 6, ?_⟩
      conv_rhs => rw [hFug]
      rw [List.append_assoc, hMg, List.take_append_drop]
    · have hdrop := congrArg (List.drop g.length) hX
      rw [List.append_assoc, List.drop_left,
        List.drop_append_of_le_length
          (show g.length ≤ ("_round".data).length by simp; omega)] at hdrop
      have h15 : g.length = 1 ∨ g.length = 2 ∨ g.length = 3 ∨
          g.length = 4 ∨ g.length = 5 := by omega
      rcases h15 with hk | hk | hk | hk | hk <;> rw [hk] at hdrop <;>
        simp at hdrop
  · have h1 := List.append_inj huv heq
    obtain ⟨-, h2⟩ := h1
    rw [List.append_assoc] at h2
    have h3 := List.append_cancel_left h2
    exact ⟨v, h3⟩
  · exfalso
    have hu : u.take F.length = F := by
      have h1 := congrArg (List.take F.length) huv
      rw [List.take_left, List.take_append_of_le_length (le_of_lt hgt)] at h1
      exact h1
    have huw : u = F ++ u.drop F.length := by
      conv_lhs => rw [← List.take_append_drop F.length u]
      rw [hu]
    set w := u.drop F.length with hw
    have hwlen : 1 ≤ w.length := by
      rw [hw, List.length_drop]
      omega
    have hX : w ++ (("_round".data ++ D) ++ v) = "_round".data ++ D' := by
      rw [huw, List.append_assoc F] at huv
      exact List.append_cancel_left huv
    by_cases hw6 : 6 ≤ w.length
    · have hdrop := congrArg (List.drop w.length) hX
      rw [List.drop_left, List.drop_append_eq_append_drop,
        show ("_round".data).drop w.length = [] from by
          apply List.drop_eq_nil_of_le
          simp
          omega] at hdrop
      simp only [List.nil_append] at hdrop
      have hmem : ('_' : Char) ∈ D'.drop (w.length - "_round".data.length) := by
        rw [← hdrop]
        simp
      have := hD' '_' (List.mem_of_mem_drop hmem)
      have h95 : ('_' : Char).toNat = 95 := rfl
      omega
    · have hdrop := congrArg (List.drop w.length) hX
      rw [List.drop_left,
        List.drop_append_of_le_length
          (show w.length ≤ ("_round".data).length by simp; omega)] at hdrop
      have h15 : w.length = 1 ∨ w.length = 2 ∨ w.length = 3 ∨
          w.length = 4 ∨ w.length = 5 := by omega
      rcases h15 with hk | hk | hk | hk | hk <;> rw [hk] at hdrop <;>
        simp at hdrop

/-- Data of the round marker. -/
theorem roundMarker_data (r : Nat) :
    (roundMarker r).data = "_round".data ++ decDigits r := by
  show ("_round" ++ natToDec r).data = _
  rw [String.data_append]
  rfl

/-- Data of the qualified query name. -/
theorem qname_data (f : String) (r : Nat) :
    (qname f r).data = f.data ++ ("_round".data ++ decDigits r) := by
  show ((f ++ "_round") ++ natToDec r).data = _
  rw [String.data_append, String.data_append]
  rw [List.append_assoc]
  rfl

/-- With a marker-free filename, a round marker occurring in a qualified
name forces the name's own round number. -/
theorem marker_in_qname (f : String) (r r' : Nat) (hle : r' ≤ r)
    (hclean : isInfixB "_round".data f.data = false)
    (h : isInfixB (roundMarker r).data (qname f r').data = true) :
    r' = r := by
  rw [roundMarker_data, qname_data] at h
  rw [isInfixB_iff] at h
  have hnot : ¬ ("_round".data <:+: f.data) := by
    intro hinf
    have := (isInfixB_iff _ _).mpr hinf
    rw [hclean] at this
    cases this
  have hpre :=
    marker_infix_clean f.data (decDigits r) (decDigits r') hnot
      (decDigits_digits r') h
  exact decDigits_prefix_eq r r' hpre hle

/-- A qualified name always contains its own round marker. -/
theorem marker_in_qname_self (f : String) (r : Nat) :
    isInfixB (roundMarker r).data (qname f r).data = true := by
  rw [roundMarker_data, qname_data, isInfixB_iff]
  exact ⟨f.data, [], by simp⟩

/-- Counting over a flattened list sums the per-block counts. -/
theorem countP_flatMap {α β : Type} (g : α → List β) (pr : β → Bool) :
    ∀ l : List α,
      (l.flatMap g).countP pr = (l.map (fun a => (g a).countP pr)).sum := by
  intro l
  induction l with
  | nil => simp
  | cons a t ih => simp [List.flatMap_cons, List.countP_append, ih]

/-- A sum of per-round counts where only round `r` contributes collapses to
round `r`'s count. -/
theorem sum_single_round (G : Nat → Nat) (r : Nat) :
    ∀ l : List Nat, l.Nodup → r ∈ l → (∀ a ∈ l, a ≠ r → G a = 0) →
      (l.map G).sum = G r := by
  intro l
  induction l with
  | nil => intro _ h; cases h
  | cons a t ih =>
    intro hnd hmem hz
    rw [List.nodup_cons] at hnd
    rcases List.mem_cons.mp hmem with rfl | hmem2
    · simp only [List.map_cons, List.sum_cons]
      have : (t.map G).sum = 0 := by
        apply List.sum_eq_zero
        intro x hx
        obtain ⟨b, hb, rfl⟩ := List.mem_map.mp hx
        exact hz b (List.mem_cons_of_mem _ hb) (fun hc => hnd.1 (hc ▸ hb))
      omega
    · simp only [List.map_cons, List.sum_cons]
      rw [ih hnd.2 hmem2 (fun b hb => hz b (List.mem_cons_of_mem _ hb))]
      have ha : G a = 0 :=
        hz a (List.mem_cons_self _ _) (fun hc => hnd.1 (hc ▸ hmem2))
      omega

/-- The payload of an enumerated entry is a member of the base list. -/
theorem snd_mem_of_mem_enumFrom {α : Type} :
    ∀ (l : List α) (n : Nat) (p : Nat × α),
      p ∈ List.enumFrom n l → p.2 ∈ l := by
  intro l
  induction l with
  | nil => intro n p h; cases h
  | cons a t ih =>
    intro n p h
    rcases List.mem_cons.mp h with rfl | h2
    · exact List.mem_cons_self _ _
    · exact List.mem_cons_of_mem _ (ih (n + 1) p h2)

/-- A round `r' ≠ r` with marker-free filenames contributes nothing to the
marker-`r` count. -/
theorem runRound_count_other (mode : Mode) (store : Bool) (env : String)
    (qenv : Nat → Nat → QueryEnvt) (recs : List QueryRecord) (r r' : Nat)
    (hle : r' ≤ r) (hne : r' ≠ r)
    (hclean : ∀ rec ∈ recs, isInfixB "_round".data rec.filename.data = false)
    (st : String) :
    (runRound mode store env qenv recs r').countP
      (fun x => x.status == st &&
        isInfixB (roundMarker r).data x.query_name.data) = 0 := by
  apply List.countP_eq_zero.mpr
  intro x hx
  obtain ⟨p, hp, rfl⟩ := List.mem_map.mp hx
  intro hand
  rw [Bool.and_eq_true] at hand
  have hinf := hand.2
  rw [dispatch_query_name] at hinf
  exact hne
    (marker_in_qname p.2.filename r r' hle
      (hclean p.2 (snd_mem_of_mem_enumFrom recs 0 p hp)) hinf)

/-- Within round `r` itself, the marker filter keeps every result. -/
theorem runRound_count_self (mode : Mode) (store : Bool) (env : String)
    (qenv : Nat → Nat → QueryEnvt) (recs : List QueryRecord) (r : Nat)
    (st : String) :
    (runRound mode store env qenv recs r).countP
      (fun x => x.status == st &&
        isInfixB (roundMarker r).data x.query_name.data) =
      (runRound mode store env qenv recs r).countP
        (fun x => x.status == st) := by
  apply List.countP_congr
  intro x hx
  obtain ⟨p, hp, rfl⟩ := List.mem_map.mp hx
  rw [dispatch_query_name, marker_in_qname_self, Bool.and_true]

/-- The accumulated marker-`r` count collapses to round `r`'s own count when
filenames are marker-free. -/
theorem resultsUpTo_count (mode : Mode) (store : Bool) (env : String)
    (qenv : Nat → Nat → QueryEnvt) (recs : List QueryRecord) (r : Nat)
    (hr : 1 ≤ r)
    (hclean : ∀ rec ∈ recs, isInfixB "_round".data rec.filename.data = false)
    (st : String) :
    (resultsUpTo mode store env qenv recs r).countP
      (fun x => x.status == st &&
        isInfixB (roundMarker r).data x.query_name.data) =
      (runRound mode store env qenv recs r).countP
        (fun x => x.status == st) := by
  unfold resultsUpTo
  rw [countP_flatMap]
  rw [sum_single_round _ r _ ?nodup ?mem ?zero]
  · exact runRound_count_self mode store env qenv recs r st
  case nodup =>
    exact (List.nodup_range r).map (fun a b h => by omega)
  case mem =>
    exact List.mem_map.mpr ⟨r - 1, List.mem_range.mpr (by omega), by omega⟩
  case zero =>
    intro a ha hne
    obtain ⟨b, hb, rfl⟩ := List.mem_map.mp ha
    exact runRound_count_other mode store env qenv recs r (b + 1)
      (by have := List.mem_range.mp hb; omega) hne hclean st

/-- C6 counterexample: one source file named `q_round2.sql` run for two
successful rounds.  After round 2 the reported success count (substring
filter) is 2, because the round-1 result `q_round2.sql_round1` also contains
`_round2`; the claim's ends-with count is 1. -/
theorem C6_round_counts_counterexample :
    roundSuccCount
        (resultsUpTo .simple false "e"
          (fun _ _ =>
            { dbOutcome := .ok [] [], explainOutcome := .error "",
              elapsed := 0, tc := 0, te := 0, tf := 0, tcol := 0,
              errElapsed := 0, client_elapsed := 0, timestamp := "" })
          [{ filename := "q_round2.sql", content := "select 1" }] 2) 2 ≠
      specRoundCount
        (resultsUpTo .simple false "e"
          (fun _ _ =>
            { dbOutcome := .ok [] [], explainOutcome := .error "",
              elapsed := 0, tc := 0, te := 0, tf := 0, tcol := 0,
              errElapsed := 0, client_elapsed := 0, timestamp := "" })
          [{ filename := "q_round2.sql", content := "select 1" }] 2)
        "success" 2 := by
  decide

/-- C6 (amended): the counts reported after round `r` count the accumulated
results of the given status whose qualified name CONTAINS the substring
`_round{r}`; when no source filename contains the substring `_round`, they
equal exactly the number of round-`r` results with that status. -/
theorem C6_round_counts (mode : Mode) (store : Bool) (env : String)
    (qenv : Nat → Nat → QueryEnvt) (recs : List QueryRecord) (r : Nat)
    (hr : 1 ≤ r)
    (hclean : ∀ rec ∈ recs,
      isInfixB "_round".data rec.filename.data = false) :
    roundSuccCount (resultsUpTo mode store env qenv recs r) r =
      (runRound mode store env qenv recs r).countP
        (fun x => x.status == "success") ∧
    roundErrCount (resultsUpTo mode store env qenv recs r) r =
      (runRound mode store env qenv recs r).countP
        (fun x => x.status == "error") :=
  ⟨resultsUpTo_count mode store env qenv recs r hr hclean "success",
   resultsUpTo_count mode store env qenv recs r hr hclean "error"⟩

/-- Witness for C6: one clean filename, one round. -/
theorem C6_round_counts_witness :
    roundSuccCount
        (resultsUpTo .simple false "e" (fun _ _ => defaultQE)
          [{ filename := "a.sql", content := "select 1" }] 1) 1 =
      (runRound .simple false "e" (fun _ _ => defaultQE)
          [{ filename := "a.sql", content := "select 1" }] 1).countP
        (fun x => x.status == "success") ∧
    roundErrCount
        (resultsUpTo .simple false "e" (fun _ _ => defaultQE)
          [{ filename := "a.sql", content := "select 1" }] 1) 1 =
      (runRound .simple false "e" (fun _ _ => defaultQE)
          [{ filename := "a.sql", content := "select 1" }] 1).countP
        (fun x => x.status == "error") :=
  C6_round_counts .simple false "e" (fun _ _ => defaultQE)
    [{ filename := "a.sql", content := "select 1" }] 1 (le_refl 1)
    (by decide)
